import Mathlib

/-!
Verification development for the robot 2D-simulation core: a shallow
embedding in Lean 4 of the entity/component storage engine
(sparse-set-backed typed stores) and the per-tick systems (input
application, two-phase collision detection, position integration with
world wrap-around), together with theorems settling the specification
claims about them.

Modelling conventions:
  * the C++ `float` scalar type (`Float` in math.hpp) is modelled by `ℚ`;
    every concrete scenario below uses values on which binary32
    arithmetic is exact, so the rational model agrees with the code there;
  * `std::vector` is modelled by `List`, reads through the vector
    subscript operator that would be out of bounds in the source
    (undefined behavior) are modelled by `Option`/no-op defaults and are
    noted at each definition;
  * the `std::size_t` sentinel `static_cast<std::size_t>(-1)` used by
    `SparseSet` to mark an empty sparse slot is modelled by `Option ℕ`
    with `none` for the sentinel;
  * `throw std::out_of_range(...)` is modelled by `Except String`;
  * the `uint32_t` hit counter is modelled by `ℕ` with an explicit
    `% 2 ^ 32` at the single place the code mutates it.
-/

namespace Robot

/-- Two-dimensional vector over the rational model of `float` (math.hpp, `struct Vec2`). -/
structure Vec2 where
  x : ℚ
  y : ℚ
deriving DecidableEq, Repr

instance : Inhabited Vec2 := ⟨⟨0, 0⟩⟩

/-- Axis-aligned bounding box (math.hpp, `struct AxisAlignedBoundingBox`). -/
structure AxisAlignedBoundingBox where
  min : Vec2
  max : Vec2
deriving DecidableEq, Repr

/-- Source `AxisAlignedBoundingBox::intersects`:
`!(max.x < other.min.x || min.x > other.max.x || max.y < other.min.y || min.y > other.max.y)`. -/
def AxisAlignedBoundingBox.intersects (a other : AxisAlignedBoundingBox) : Bool :=
  !(decide (a.max.x < other.min.x) || decide (a.min.x > other.max.x) ||
    decide (a.max.y < other.min.y) || decide (a.min.y > other.max.y))

/-- Polygon with parallel vertex-coordinate vectors
(component_types.hpp, `struct Polygon`). -/
structure Polygon where
  vertices_x : List ℚ
  vertices_y : List ℚ
deriving DecidableEq, Repr

instance : Inhabited Polygon := ⟨⟨[], []⟩⟩

/-- Source `Polygon::size`: returns `vertices_x.size()` (the source asserts the two
vectors always have equal length). -/
def Polygon.size (p : Polygon) : ℕ :=
  p.vertices_x.length

/-- Source `Polygon::empty`. -/
def Polygon.emptyP (p : Polygon) : Bool :=
  p.vertices_x.isEmpty && p.vertices_y.isEmpty

/-- Source `Polygon::get_aabb`: min/max element over each coordinate vector.
On an empty vector the source dereferences `std::min_element`'s end
iterator — undefined behavior, with no guard or error path; that case is
modelled as `none`. -/
def Polygon.get_aabb (p : Polygon) : Option AxisAlignedBoundingBox :=
  match p.vertices_x, p.vertices_y with
  | x :: xs, y :: ys =>
      some ⟨⟨xs.foldl min x, ys.foldl min y⟩, ⟨xs.foldl max x, ys.foldl max y⟩⟩
  | _, _ => none

/-- Source `Polygon::may_intersect`: AABB of `this` against the AABB of each
polygon of `others`, true as soon as one pair of boxes overlaps.
A `none` AABB (empty polygon, undefined behavior in the source) yields
`false` here; every theorem below that touches this function restricts
to nonempty polygons, where the model is exact. -/
def Polygon.may_intersect (p : Polygon) (others : List Polygon) : Bool :=
  match p.get_aabb with
  | none => false
  | some aabb =>
      others.any fun other =>
        match other.get_aabb with
        | none => false
        | some other_aabb => aabb.intersects other_aabb

/-- Source `Polygon::get_edge_normal`: unnormalized perpendicular
`(-edge_y, edge_x)` of the edge from vertex `i` to vertex `(i+1) % size`.
The subscript reads are modelled with default `0`; they are out of bounds
(undefined behavior) in the source only when `i ≥ size`, a region no
theorem below relies on. -/
def Polygon.get_edge_normal (p : Polygon) (i : ℕ) : Vec2 :=
  let vertex_count := p.size
  let edge_x := p.vertices_x.getD ((i + 1) % vertex_count) 0 - p.vertices_x.getD i 0
  let edge_y := p.vertices_y.getD ((i + 1) % vertex_count) 0 - p.vertices_y.getD i 0
  ⟨-edge_y, edge_x⟩

/-- Source `Polygon::project_onto_axis`: projects `poly` onto `normal`, returning
the (min, max) of the dot products over the zipped vertex sequence.  The
source initializes the accumulators to `(+∞, -∞)`; for a nonempty polygon
the result equals the fold below, and the empty case (degenerate reversed
interval `(+∞, -∞)`) is modelled as `none`.  The receiver `_self` is
unused, exactly as in the source member function, which only reads its
parameters. -/
def Polygon.project_onto_axis (_self : Polygon) (poly : Polygon) (normal : Vec2) :
    Option (ℚ × ℚ) :=
  match (poly.vertices_x.zip poly.vertices_y).map
      (fun v => normal.x * v.1 + normal.y * v.2) with
  | [] => none
  | q :: qs => some (qs.foldl min q, qs.foldl max q)

/-- The separation test `max_a < min_b or max_b < min_a` on two projected
intervals.  A `none` interval stands for the source's `(+∞, -∞)`
initialization on an empty vertex list, and with IEEE infinities the
source comparison is then always true, hence `true` in those branches. -/
def separatedOn (a b : Option (ℚ × ℚ)) : Bool :=
  match a, b with
  | some pa, some pb => decide (pa.2 < pb.1) || decide (pb.2 < pa.1)
  | _, _ => true

/-- The lambda `checkSeparationWith` inside `Polygon::intersects`.  The
lambda captures `*this` by value (`[*this, &other]`), so the unqualified
member calls `get_edge_normal(i)` and `project_onto_axis(...)` inside it
bind to the captured copy of `this` — NOT to the parameter `poly`, which
only bounds the loop `for i < poly.size()`.  The translation keeps that
binding: axes always come from `self`, while `poly` contributes only its
vertex count. -/
def Polygon.checkSeparationWith (self other poly : Polygon) : Bool :=
  (List.range poly.size).all fun i =>
    let normal := self.get_edge_normal i
    !(separatedOn (self.project_onto_axis self normal)
        (self.project_onto_axis other normal))

/-- Source `Polygon::intersects`: `checkSeparationWith(*this) && checkSeparationWith(other)`. -/
def Polygon.intersects (self other : Polygon) : Bool :=
  self.checkSeparationWith other self && self.checkSeparationWith other other

/-- Modelled from the spec words for the Separating Axis Theorem claim:
the candidate axes are the unnormalized perpendiculars of every edge of
polygon A and of every edge of polygon B. -/
def specSatAxes (a b : Polygon) : List Vec2 :=
  (List.range a.size).map a.get_edge_normal ++ (List.range b.size).map b.get_edge_normal

/-- Modelled from the spec words for the Separating Axis Theorem claim:
project both polygons onto every candidate axis from `specSatAxes` and
declare intersection exactly when no axis has non-overlapping projected
intervals. -/
def specSatIntersects (a b : Polygon) : Bool :=
  (specSatAxes a b).all fun normal =>
    !(separatedOn (a.project_onto_axis a normal) (a.project_onto_axis b normal))

/-- Modelled from the spec words for the broad-phase claim: a polygon's
axis-aligned bounding box in world space is the entity Position plus the
local vertex extrema. -/
def specWorldAabb (pos : Vec2) (p : Polygon) : Option AxisAlignedBoundingBox :=
  p.get_aabb.map fun bb =>
    ⟨⟨bb.min.x + pos.x, bb.min.y + pos.y⟩, ⟨bb.max.x + pos.x, bb.max.y + pos.y⟩⟩

/-- Source `HitCounter` component (component_types.hpp): `uint32_t hits`.  The
field is modelled as `ℕ`; the single mutation site (`hits += 1` in
`handleCollisions`) applies the `uint32_t` wrap `% 2 ^ 32` explicitly. -/
structure HitCounter where
  hits : ℕ
deriving DecidableEq, Repr

instance : Inhabited HitCounter := ⟨⟨0⟩⟩

/-- Sparse set over entity identifiers (sparse_set.hpp, `class SparseSet`).
`dataIndex` is the sparse array (`none` models the `size_t(-1)` sentinel),
`data` the dense array of ids.  The template parameter `EntityCount` is
recoverable as `dataIndex.length`, which the source keeps equal to
`EntityCount` through every operation (asserted there). -/
structure SparseSet where
  dataIndex : List (Option ℕ)
  data : List ℕ
deriving DecidableEq, Repr

/-- The `SparseSet` default constructor: sparse array of `entityCount`
sentinel entries, empty dense array. -/
def SparseSet.init (entityCount : ℕ) : SparseSet :=
  ⟨List.replicate entityCount none, []⟩

/-- Source `SparseSet::size`. -/
def SparseSet.size (s : SparseSet) : ℕ :=
  s.data.length

/-- Source `SparseSet::contains`: false for out-of-range ids, otherwise the
sparse entry is not the sentinel. -/
def SparseSet.contains (s : SparseSet) (value : ℕ) : Bool :=
  if s.dataIndex.length ≤ value then false
  else (s.dataIndex.getD value none).isSome

/-- Source `SparseSet::insert`: throws `out_of_range` for `value ≥ EntityCount`,
no-ops on an already present id, otherwise appends to the dense array and
records the new index in the sparse array. -/
def SparseSet.insert (s : SparseSet) (value : ℕ) : Except String SparseSet :=
  if s.dataIndex.length ≤ value then
    .error "SparseSet::insert: value out of range"
  else if (s.dataIndex.getD value none).isSome then
    .ok s
  else
    .ok ⟨s.dataIndex.set value (some s.data.length), s.data ++ [value]⟩

/-- The body of `SparseSet::erase` after its range check: no-op on an
absent id, otherwise swap-and-pop — `data[index] = data.back()`, point the
swapped id's sparse entry at `index`, pop the dense array, set the erased
id's sparse entry to the sentinel (in that order, so erasing the last
element still ends with a sentinel).  `data.back()` on an empty dense
array is undefined behavior in the source and is modelled by the
`getLastD` default; it is unreachable from any state satisfying the
invariant. -/
def SparseSet.eraseCore (s : SparseSet) (value : ℕ) : SparseSet :=
  match s.dataIndex.getD value none with
  | none => s
  | some index =>
      let lastValue := s.data.getLastD 0
      ⟨(s.dataIndex.set lastValue (some index)).set value none,
        (s.data.set index lastValue).dropLast⟩

/-- Source `SparseSet::erase`: throws `out_of_range` for `value ≥ EntityCount`,
otherwise runs the swap-and-pop body. -/
def SparseSet.erase (s : SparseSet) (value : ℕ) : Except String SparseSet :=
  if s.dataIndex.length ≤ value then
    .error "SparseSet::erase: value out of range"
  else
    .ok (s.eraseCore value)

/-- Source `SparseSet::clear`: every sparse entry back to the sentinel, dense
array emptied. -/
def SparseSet.clear (s : SparseSet) : SparseSet :=
  ⟨List.replicate s.dataIndex.length none, []⟩

/-- Source `SparseSet::indexFor`: throws `out_of_range` for `entityId ≥ EntityCount`,
otherwise returns the raw sparse entry (possibly the sentinel — the source
documents the result as undefined for absent ids). -/
def SparseSet.indexFor (s : SparseSet) (entityId : ℕ) : Except String (Option ℕ) :=
  if s.dataIndex.length ≤ entityId then
    .error "SparseSet::indexFor: index out of range"
  else
    .ok (s.dataIndex.getD entityId none)

/-- One mutating `SparseSet` operation, for stating sequence-preservation
claims about insert/erase/clear. -/
inductive SparseOp where
  | insert (value : ℕ)
  | erase (value : ℕ)
  | clear
deriving DecidableEq, Repr

/-- Apply one operation. -/
def SparseSet.applyOp (s : SparseSet) : SparseOp → Except String SparseSet
  | .insert v => s.insert v
  | .erase v => s.erase v
  | .clear => .ok s.clear

/-- Run a sequence of operations, stopping at the first exception. -/
def SparseSet.runOps (s : SparseSet) : List SparseOp → Except String SparseSet
  | [] => .ok s
  | op :: ops => (s.applyOp op).bind fun s1 => s1.runOps ops

/-- Whether an operation's argument lies in `[0, entityCount)` (clear has
no argument). -/
def SparseOp.argOk (entityCount : ℕ) : SparseOp → Bool
  | .insert v => decide (v < entityCount)
  | .erase v => decide (v < entityCount)
  | .clear => true

/-- Executable form of the `SparseSet` bidirectional invariant:
the dense length equals the number of non-sentinel sparse entries, every
non-sentinel sparse entry points at a dense slot holding its id, and every
dense slot is pointed back at by its id's sparse entry. -/
def SparseSet.good (s : SparseSet) : Bool :=
  (s.data.length == List.countP (fun o => o.isSome) s.dataIndex)
  && ((List.range s.dataIndex.length).all fun id =>
        (s.dataIndex.getD id none).elim true fun i => s.data[i]? == some id)
  && ((List.range s.data.length).all fun j =>
        (s.data[j]?).elim true fun id => s.dataIndex[id]? == some (some j))

/-- Component store pairing one `SparseSet` with a parallel dense value
vector (component.hpp, `class Component`). -/
structure Component (T : Type) where
  entities : SparseSet
  data : List T
deriving DecidableEq, Repr

/-- The `Component` default constructor, with the sparse set sized
`maxEntities` (the C++ template default is 1000). -/
def Component.init (T : Type) (maxEntities : ℕ) : Component T :=
  ⟨SparseSet.init maxEntities, []⟩

/-- Source `Component::contains`. -/
def Component.containsE (s : Component T) (entity : ℕ) : Bool :=
  s.entities.contains entity

/-- Source `Component::size`: delegates to the sparse set. -/
def Component.size (s : Component T) : ℕ :=
  s.entities.size

/-- Source `Component::get` / `operator[]` as a read:
`data[entities.indexFor(entity)]`.  For an absent id the sparse entry is
the `size_t(-1)` sentinel and the vector subscript is undefined behavior
(despite the doc comment's claimed `std::out_of_range`); that case, and a
stale index beyond `data.size()`, are modelled as `none`. -/
def Component.get? (s : Component T) (entity : ℕ) : Option T :=
  match s.entities.dataIndex.getD entity none with
  | some i => s.data[i]?
  | none => none

/-- Source `Component::get` / `operator[]` as a write through the returned
reference: replaces `data[entities.indexFor(entity)]`.  For an absent id
the source write is undefined behavior; it is modelled as a no-op and
every write in the systems below is guarded by `contains`. -/
def Component.setAt (s : Component T) (entity : ℕ) (v : T) : Component T :=
  match s.entities.dataIndex.getD entity none with
  | some i => ⟨s.entities, s.data.set i v⟩
  | none => s

/-- Source `Component::insert` (and `emplace`, identical but for construction):
registers the id in the sparse set — which silently no-ops on a duplicate —
then unconditionally appends the value to the dense value vector. -/
def Component.insert (s : Component T) (entity : ℕ) (v : T) :
    Except String (Component T) :=
  (s.entities.insert entity).map fun es => ⟨es, s.data ++ [v]⟩

/-- Source `Component::erase`: no-op if absent; otherwise read the dense index
from the sparse set BEFORE mutating it, swap the value at that index with
the last value (only when it is not already last), pop the value vector,
then erase from the sparse set.  The sparse-set erase cannot throw here
because `contains` already vouched for the range, so the no-throw body
`eraseCore` is called.  When the store is desynchronized (`data` shorter
than the dense id array) the source's `index < data.size() - 1` underflows
and the swap reads out of bounds — undefined behavior; the model's
`getD`/`dropLast` defaults stand in for it, and the alignment hypothesis
of the theorems below excludes it. -/
def Component.erase [Inhabited T] (s : Component T) (entity : ℕ) : Component T :=
  if !(s.entities.contains entity) then s
  else
    match s.entities.dataIndex.getD entity none with
    | none => s
    | some index =>
        let n := s.data.length
        let data1 :=
          if index < n - 1 then
            (s.data.set index (s.data.getD (n - 1) default)).set (n - 1)
              (s.data.getD index default)
          else s.data
        ⟨s.entities.eraseCore entity, data1.dropLast⟩

/-- Source `Component::clear`. -/
def Component.clear (s : Component T) : Component T :=
  ⟨s.entities.clear, []⟩

/-- Component iteration: the zip of the dense id array with the dense
value vector, as produced by the boost zip iterators in
`Component::begin()/end()`. -/
def Component.pairs (s : Component T) : List (ℕ × T) :=
  s.entities.data.zip s.data

/-- Executable alignment invariant of a component store: the sparse set is
good and the value vector has exactly one slot per dense id. -/
def Component.aligned (s : Component T) : Bool :=
  s.entities.good && (s.data.length == s.entities.data.length)

/-- The registry of typed component stores used by the systems
(component_types.hpp `EntityStore`, components.hpp `Components`): one
store per component type in {Position, Velocity, PlayerInput, HitCounter,
Polygon}, per the spec data model. -/
structure EntityStore where
  positions : Component Vec2
  velocities : Component Vec2
  playerInputs : Component Vec2
  hitCounters : Component HitCounter
  polygons : Component Polygon
deriving Repr

/-- Loop body of `handlePlayerInput` for one `(entity, input)` pair:
copy the input into the entity's Velocity when it has one, otherwise
report the entity on the diagnostic channel (`std::cerr` in the source,
the accumulated id list here) and skip. -/
def handlePlayerInputStep (acc : Component Vec2 × List ℕ) (p : ℕ × Vec2) :
    Component Vec2 × List ℕ :=
  if acc.1.containsE p.1 then
    (acc.1.setAt p.1 ⟨p.2.x, p.2.y⟩, acc.2)
  else
    (acc.1, acc.2 ++ [p.1])

/-- Source `handlePlayerInput` (systems.hpp): iterate the PlayerInput store,
overwriting velocities; returns the mutated store together with the list
of entities reported to `std::cerr` as having input but no velocity. -/
def handlePlayerInput (store : EntityStore) : EntityStore × List ℕ :=
  let r := store.playerInputs.pairs.foldl handlePlayerInputStep (store.velocities, [])
  ({ store with velocities := r.1 }, r.2)

/-- Inner-loop body of `handleCollisions` for one ordered pair
`(entity_a, poly_a)`, `(entity_b, poly_b)`: skip unless `entity_a < entity_b`;
broad phase `may_intersect`, narrow phase `intersects`; on a confirmed hit,
if `entity_a` owns a HitCounter bump it (`uint32_t` wrap made explicit) and,
if `entity_a` also owns a Velocity, zero it.  `entity_b` is never touched. -/
def processPair (hc : Component HitCounter) (vel : Component Vec2)
    (pa : ℕ × Polygon) (pb : ℕ × Polygon) : Component HitCounter × Component Vec2 :=
  if pb.1 ≤ pa.1 then (hc, vel)
  else if pa.2.may_intersect [pb.2] then
    if pa.2.intersects pb.2 then
      if hc.containsE pa.1 then
        let hc1 := hc.setAt pa.1 ⟨(((hc.get? pa.1).getD default).hits + 1) % 2 ^ 32⟩
        if vel.containsE pa.1 then (hc1, vel.setAt pa.1 ⟨0, 0⟩) else (hc1, vel)
      else (hc, vel)
    else (hc, vel)
  else (hc, vel)

/-- Source `handleCollisions` (systems.hpp): O(n²) nested loop over the Polygon
store's `(entity, polygon)` pairs.  Note that the Position store is never
read: both collision phases use the polygons' stored (entity-local)
vertices as-is. -/
def handleCollisions (store : EntityStore) : EntityStore :=
  let ps := store.polygons.pairs
  let r := ps.foldl
    (fun acc pa => ps.foldl (fun acc2 pb => processPair acc2.1 acc2.2 pa pb) acc)
    (store.hitCounters, store.velocities)
  { store with hitCounters := r.1, velocities := r.2 }

/-- World bounds (systems.hpp). -/
def WORLD_MIN_X : ℚ := -120
/-- World bounds (systems.hpp). -/
def WORLD_MAX_X : ℚ := 120
/-- World bounds (systems.hpp). -/
def WORLD_MIN_Y : ℚ := -120
/-- World bounds (systems.hpp). -/
def WORLD_MAX_Y : ℚ := 120

/-- First `wrapCoordinate` loop: `while (value < min_val) value += range;`.
The `0 < range` conjunct mirrors the enclosing `range <= 0` early return,
under which the loop condition is only ever evaluated with a positive
range; it also makes the recursion well-founded. -/
def wrapUp (value min_val range : ℚ) : ℚ :=
  if h : 0 < range ∧ value < min_val then wrapUp (value + range) min_val range
  else value
termination_by (⌈(min_val - value) / range⌉).toNat
decreasing_by
  obtain ⟨hr, hv⟩ := h
  have hpos : (0 : ℚ) < (min_val - value) / range := div_pos (by linarith) hr
  have hstep : (min_val - (value + range)) / range = (min_val - value) / range - 1 := by
    field_simp
    ring
  have hone : 1 ≤ ⌈(min_val - value) / range⌉ := Int.ceil_pos.mpr hpos
  have : ⌈(min_val - (value + range)) / range⌉ = ⌈(min_val - value) / range⌉ - 1 := by
    rw [hstep, Int.ceil_sub_one]
  rw [this]
  omega

/-- Second `wrapCoordinate` loop: `while (value >= max_val) value -= range;`,
with the same positivity guard. -/
def wrapDown (value max_val range : ℚ) : ℚ :=
  if h : 0 < range ∧ max_val ≤ value then wrapDown (value - range) max_val range
  else value
termination_by (⌊(value - max_val) / range⌋ + 1).toNat
decreasing_by
  obtain ⟨hr, hv⟩ := h
  have hpos : (0 : ℚ) ≤ (value - max_val) / range := div_nonneg (by linarith) (le_of_lt hr)
  have hstep : (value - range - max_val) / range = (value - max_val) / range - 1 := by
    field_simp
    ring
  have hzero : 0 ≤ ⌊(value - max_val) / range⌋ := Int.floor_nonneg.mpr hpos
  have : ⌊(value - range - max_val) / range⌋ = ⌊(value - max_val) / range⌋ - 1 := by
    rw [hstep, Int.floor_sub_one]
  rw [this]
  omega

/-- Source `wrapCoordinate` (systems.hpp): early return on non-positive range,
then the two wrap loops in source order. -/
def wrapCoordinate (value min_val max_val : ℚ) : ℚ :=
  let range := max_val - min_val
  if range ≤ 0 then value
  else wrapDown (wrapUp value min_val range) max_val range

/-- Loop body of `updatePositions` for one `(entity, velocity)` pair:
skip entities with no Position; otherwise add the velocity to the position
and wrap each axis into the world bounds. -/
def updatePositionsStep (ps : Component Vec2) (ev : ℕ × Vec2) : Component Vec2 :=
  if ps.containsE ev.1 then
    let position := (ps.get? ev.1).getD default
    ps.setAt ev.1
      ⟨wrapCoordinate (position.x + ev.2.x) WORLD_MIN_X WORLD_MAX_X,
        wrapCoordinate (position.y + ev.2.y) WORLD_MIN_Y WORLD_MAX_Y⟩
  else ps

/-- Source `updatePositions` (systems.hpp): iterate the Velocity store, mutating
the Position store. -/
def updatePositions (store : EntityStore) : EntityStore :=
  { store with positions := store.velocities.pairs.foldl updatePositionsStep store.positions }

/-- Propositional form of `SparseSet.good`: the bidirectional invariant —
dense length counts the non-sentinel sparse entries, each non-sentinel
sparse entry points at a dense slot holding its id, and each dense slot is
pointed back at by its id's sparse entry. -/
def GoodProps (s : SparseSet) : Prop :=
  s.data.length = List.countP (fun o => o.isSome) s.dataIndex
  ∧ (∀ (id i : ℕ), s.dataIndex[id]? = some (some i) → s.data[i]? = some id)
  ∧ (∀ (j id : ℕ), s.data[j]? = some id → s.dataIndex[id]? = some (some j))

/-- An empty component store over a 4-entity id space, for the concrete
scenarios below. -/
def emptyC (T : Type) : Component T :=
  Component.init T 4

/-- Unit-aligned square `[0,2] × [0,2]` of the spec's collision scenario A. -/
def sq02 : Polygon := ⟨[0, 2, 2, 0], [0, 0, 2, 2]⟩

/-- Unit-aligned square `[1,3] × [1,3]` of the spec's collision scenario A. -/
def sq13 : Polygon := ⟨[1, 3, 3, 1], [1, 1, 3, 3]⟩

/-- Unit square `[0,1] × [0,1]` with integer-scaled copy `sq10`. -/
def sqU : Polygon := ⟨[0, 1, 1, 0], [0, 0, 1, 1]⟩

/-- Square `[0,10] × [0,10]`: polygon A of the separating-axis
counterexample. -/
def sq10 : Polygon := ⟨[0, 10, 10, 0], [0, 0, 10, 10]⟩

/-- Diamond centered at `(15,15)` with half-diagonal 6: polygon B of the
separating-axis counterexample.  Its diagonal edge normals separate it
from `sq10` (projections `[0,120]` vs `[144,216]` on axis `(6,6)`), while
the axis-aligned normals of `sq10` do not. -/
def dia15 : Polygon := ⟨[9, 15, 21, 15], [15, 9, 15, 21]⟩

/-- Concrete store for collision scenario A: entity 0 owns square
`[0,2]²`, a HitCounter at 0 and Velocity `(1,0)`; entity 1 owns square
`[1,3]²`. -/
def scenA : EntityStore :=
  { positions := emptyC Vec2
    velocities := ⟨⟨[some 0, none, none, none], [0]⟩, [⟨1, 0⟩]⟩
    playerInputs := emptyC Vec2
    hitCounters := ⟨⟨[some 0, none, none, none], [0]⟩, [⟨0⟩]⟩
    polygons := ⟨⟨[some 0, some 1, none, none], [0, 1]⟩, [sq02, sq13]⟩ }

/-- Concrete store refuting the world-space broad phase: entities 0 and 1
both carry the local unit square `[0,1]²` as Polygon, but their Positions
are `(0,0)` and `(100,100)`, so the world-space boxes are far apart;
entity 0 owns a HitCounter at 0. -/
def scenFar : EntityStore :=
  { positions := ⟨⟨[some 0, some 1, none, none], [0, 1]⟩, [⟨0, 0⟩, ⟨100, 100⟩]⟩
    velocities := emptyC Vec2
    playerInputs := emptyC Vec2
    hitCounters := ⟨⟨[some 0, none, none, none], [0]⟩, [⟨0⟩]⟩
    polygons := ⟨⟨[some 0, some 1, none, none], [0, 1]⟩, [sqU, sqU]⟩ }

/-- Concrete store for the movement wrap scenario: entity 0 at Position
`(119, 0)` with Velocity `(5, 0)`. -/
def scenWrap : EntityStore :=
  { positions := ⟨⟨[some 0, none, none, none], [0]⟩, [⟨119, 0⟩]⟩
    velocities := ⟨⟨[some 0, none, none, none], [0]⟩, [⟨5, 0⟩]⟩
    playerInputs := emptyC Vec2
    hitCounters := emptyC HitCounter
    polygons := emptyC Polygon }

/-- Concrete aligned ℕ-valued component store holding values 10, 11, 12
for entities 0, 1, 2, used to witness the store lemmas. -/
def cstoreEx : Component ℕ :=
  ⟨⟨[some 0, some 1, some 2, none], [0, 1, 2]⟩, [10, 11, 12]⟩

/-- Concrete store for the input scenario: entity 0 has PlayerInput
`(1,0)` and Velocity `(0,0)`; entity 1 has PlayerInput `(3,4)` but no
Velocity. -/
def scenInput : EntityStore :=
  { positions := emptyC Vec2
    velocities := ⟨⟨[some 0, none, none, none], [0]⟩, [⟨0, 0⟩]⟩
    playerInputs := ⟨⟨[some 0, some 1, none, none], [0, 1]⟩, [⟨1, 0⟩, ⟨3, 4⟩]⟩
    hitCounters := emptyC HitCounter
    polygons := emptyC Polygon }

/-! ## SparseSet invariant lemmas -/

theorem SparseSet.good_iff (s : SparseSet) : s.good = true ↔ GoodProps s := by
  unfold SparseSet.good GoodProps
  rw [Bool.and_eq_true, Bool.and_eq_true, beq_iff_eq, List.all_eq_true, List.all_eq_true]
  constructor
  · rintro ⟨⟨hcount, hfwd⟩, hbwd⟩
    refine ⟨hcount, ?_, ?_⟩
    · intro id i h
      have hid : id < s.dataIndex.length := (List.getElem?_eq_some.mp h).1
      have h2 := hfwd id (List.mem_range.mpr hid)
      rw [List.getD_eq_getElem?_getD, h] at h2
      simpa using h2
    · intro j id h
      have hj : j < s.data.length := (List.getElem?_eq_some.mp h).1
      have h2 := hbwd j (List.mem_range.mpr hj)
      rw [h] at h2
      simpa using h2
  · rintro ⟨hcount, hfwd, hbwd⟩
    refine ⟨⟨hcount, ?_⟩, ?_⟩
    · intro id hid
      rw [List.getD_eq_getElem?_getD]
      cases h : s.dataIndex[id]? with
      | none => simp
      | some o =>
        cases o with
        | none => simp
        | some i => simpa using hfwd id i h
    · intro j hj
      cases h : s.data[j]? with
      | none => simp
      | some id => simpa using hbwd j id h

theorem goodProps_init (n : ℕ) : GoodProps (SparseSet.init n) := by
  refine ⟨?_, ?_, ?_⟩
  · simp [SparseSet.init, List.countP_replicate]
  · intro id i h
    simp [SparseSet.init, List.getElem?_replicate] at h
  · intro j id h
    simp [SparseSet.init] at h

theorem goodProps_clear (s : SparseSet) : GoodProps s.clear := by
  refine ⟨?_, ?_, ?_⟩
  · simp [SparseSet.clear, List.countP_replicate]
  · intro id i h
    simp [SparseSet.clear, List.getElem?_replicate] at h
  · intro j id h
    simp [SparseSet.clear] at h

theorem goodProps_insert (s : SparseSet) (v : ℕ) (hs : GoodProps s)
    (hv : v < s.dataIndex.length) :
    ∃ s1, s.insert v = .ok s1 ∧ GoodProps s1 ∧
      s1.dataIndex.length = s.dataIndex.length := by
  obtain ⟨hcount, hfwd, hbwd⟩ := hs
  unfold SparseSet.insert
  rw [if_neg (by omega)]
  by_cases hpres : (s.dataIndex.getD v none).isSome
  · rw [if_pos hpres]
    exact ⟨s, rfl, ⟨hcount, hfwd, hbwd⟩, rfl⟩
  · rw [if_neg hpres]
    have hventry : s.dataIndex[v]? = some none := by
      rw [List.getD_eq_getElem?_getD, List.getElem?_eq_getElem hv] at hpres
      rw [List.getElem?_eq_getElem hv]
      simpa using hpres
    have hvnone : s.dataIndex[v] = none := by
      rw [List.getElem?_eq_getElem hv] at hventry
      simpa using hventry
    refine ⟨_, rfl, ⟨?_, ?_, ?_⟩, by simp⟩
    · rw [List.length_append, List.countP_set _ _ _ _ hv, hvnone]
      simp [hcount]
    · intro id i h
      by_cases hid : id = v
      · subst hid
        rw [List.getElem?_set_self hv] at h
        have hi : s.data.length = i := by simpa using h
        subst hi
        rw [List.getElem?_append_right (le_refl _)]
        simp
      · rw [List.getElem?_set_ne (fun hh => hid hh.symm)] at h
        have hlt : i < s.data.length := (List.getElem?_eq_some.mp (hfwd id i h)).1
        rw [List.getElem?_append_left hlt]
        exact hfwd id i h
    · intro j id h
      by_cases hj : j < s.data.length
      · rw [List.getElem?_append_left hj] at h
        have hb := hbwd j id h
        have hidv : id ≠ v := by
          intro hh
          subst hh
          rw [hventry] at hb
          simp at hb
        rw [List.getElem?_set_ne (fun hh => hidv hh.symm)]
        exact hb
      · have hjlen : j < s.data.length + 1 := by
          have := (List.getElem?_eq_some.mp h).1
          simpa using this
        have hjeq : j = s.data.length := by omega
        subst hjeq
        rw [List.getElem?_append_right (le_refl _)] at h
        have hvid : v = id := by simpa using h
        subst hvid
        rw [List.getElem?_set_self hv]

theorem goodProps_eraseCore (s : SparseSet) (v : ℕ) (hs : GoodProps s) :
    GoodProps (s.eraseCore v) ∧
      (s.eraseCore v).dataIndex.length = s.dataIndex.length := by
  obtain ⟨hcount, hfwd, hbwd⟩ := hs
  unfold SparseSet.eraseCore
  cases hentry : s.dataIndex.getD v none with
  | none => exact ⟨⟨hcount, hfwd, hbwd⟩, rfl⟩
  | some index =>
    have hv : v < s.dataIndex.length := by
      by_contra hh
      rw [List.getD_eq_getElem?_getD, List.getElem?_eq_none (by omega)] at hentry
      simp at hentry
    have hventry : s.dataIndex[v]? = some (some index) := by
      rw [List.getD_eq_getElem?_getD, List.getElem?_eq_getElem hv] at hentry
      rw [List.getElem?_eq_getElem hv]
      simpa using hentry
    have hdv : s.data[index]? = some v := hfwd v index hventry
    have hindex : index < s.data.length := (List.getElem?_eq_some.mp hdv).1
    have hpos : 0 < s.data.length := by omega
    have hlastval : s.data.getLastD 0 = s.data[s.data.length - 1] := by
      rw [List.getLastD_eq_getLast?, List.getLast?_eq_getElem?,
        List.getElem?_eq_getElem (by omega)]
      simp
    set lastValue := s.data.getLastD 0 with hlv
    have hlastget : s.data[s.data.length - 1]? = some lastValue := by
      rw [List.getElem?_eq_getElem (by omega), hlastval]
    have hblast : s.dataIndex[lastValue]? = some (some (s.data.length - 1)) :=
      hbwd _ _ hlastget
    have hlvlt : lastValue < s.dataIndex.length := (List.getElem?_eq_some.mp hblast).1
    -- v = lastValue exactly when index is the last dense slot
    have hcrit : v = lastValue ↔ index = s.data.length - 1 := by
      constructor
      · intro hh
        rw [hh, hblast] at hventry
        simpa using hventry.symm
      · intro hh
        rw [hh] at hdv
        rw [hlastget] at hdv
        simpa using hdv.symm
    refine ⟨⟨?_, ?_, ?_⟩, by simp⟩
    · -- dense length decreases by one, matching the sentinel added at v
      have h1 : (s.dataIndex.set lastValue (some index))[v]? = some (some index) := by
        by_cases hh : lastValue = v
        · rw [hh, List.getElem?_set_self (by simpa using hv)]
        · rw [List.getElem?_set_ne hh]
          exact hventry
      obtain ⟨hb1, he1⟩ := List.getElem?_eq_some.mp h1
      obtain ⟨hb2, he2⟩ := List.getElem?_eq_some.mp hblast
      rw [List.length_dropLast, List.length_set,
        List.countP_set _ _ _ _ hb1,
        List.countP_set _ _ _ _ hb2]
      simp only [he1, he2]
      simp [hcount]
    · -- forward direction of the invariant on the erased state
      intro id i h
      by_cases hidv : id = v
      · subst hidv
        rw [List.getElem?_set_self (by simpa using hv)] at h
        simp at h
      · rw [List.getElem?_set_ne (fun hh => hidv hh.symm)] at h
        by_cases hidlast : id = lastValue
        · subst hidlast
          rw [List.getElem?_set_self (by simpa using hlvlt)] at h
          have hi : index = i := by simpa using h
          subst hi
          have hinlt : index < s.data.length - 1 := by
            rcases Nat.lt_or_ge index (s.data.length - 1) with hh | hh
            · exact hh
            · exact absurd ((hcrit.mpr (by omega)).symm) hidv
          rw [List.getElem?_dropLast, if_pos (by simpa using hinlt),
            List.getElem?_set_self (by omega)]
        · rw [List.getElem?_set_ne (fun hh => hidlast hh.symm)] at h
          have hdi : s.data[i]? = some id := hfwd id i h
          have hilt : i < s.data.length := (List.getElem?_eq_some.mp hdi).1
          have hine : i ≠ index := by
            intro hh
            rw [hh, hdv] at hdi
            exact hidv (by simpa using hdi.symm)
          have hinlast : i ≠ s.data.length - 1 := by
            intro hh
            rw [hh, hlastget] at hdi
            exact hidlast (by simpa using hdi.symm)
          rw [List.getElem?_dropLast, if_pos (by rw [List.length_set]; omega),
            List.getElem?_set_ne (fun hh => hine hh.symm)]
          exact hdi
    · -- backward direction of the invariant on the erased state
      intro j id h
      have hjlt : j < s.data.length - 1 := by
        have := (List.getElem?_eq_some.mp h).1
        simpa using this
      rw [List.getElem?_dropLast, if_pos (by simpa using hjlt)] at h
      by_cases hji : j = index
      · subst hji
        rw [List.getElem?_set_self (by omega)] at h
        have hidlv : lastValue = id := by simpa using h
        subst hidlv
        have hlv_ne_v : lastValue ≠ v := by
          intro hh
          have := hcrit.mp hh.symm
          omega
        rw [List.getElem?_set_ne (fun hh => hlv_ne_v hh.symm),
          List.getElem?_set_self (by simpa using hlvlt)]
      · rw [List.getElem?_set_ne (fun hh => hji hh.symm)] at h
        have hb := hbwd j id h
        have hid_ne_v : id ≠ v := by
          intro hh
          subst hh
          rw [hventry] at hb
          exact hji (by simpa using hb.symm)
        have hid_ne_lv : id ≠ lastValue := by
          intro hh
          subst hh
          rw [hblast] at hb
          have hlast_j : s.data.length - 1 = j := by simpa using hb
          omega
        rw [List.getElem?_set_ne (fun hh => hid_ne_v hh.symm),
          List.getElem?_set_ne (fun hh => hid_ne_lv hh.symm)]
        exact hb

theorem goodProps_applyOp (s : SparseSet) (op : SparseOp) (hs : GoodProps s)
    (hop : op.argOk s.dataIndex.length = true) :
    ∃ s1, s.applyOp op = .ok s1 ∧ GoodProps s1 ∧
      s1.dataIndex.length = s.dataIndex.length := by
  cases op with
  | insert v =>
    exact goodProps_insert s v hs (by simpa [SparseOp.argOk] using hop)
  | erase v =>
    have hv : v < s.dataIndex.length := by simpa [SparseOp.argOk] using hop
    refine ⟨s.eraseCore v, ?_, (goodProps_eraseCore s v hs).1,
      (goodProps_eraseCore s v hs).2⟩
    simp [SparseSet.applyOp, SparseSet.erase, if_neg (by omega : ¬ s.dataIndex.length ≤ v)]
  | clear =>
    exact ⟨s.clear, rfl, goodProps_clear s, by simp [SparseSet.clear]⟩

theorem goodProps_runOps (ops : List SparseOp) :
    ∀ (s : SparseSet), GoodProps s →
    (∀ op ∈ ops, op.argOk s.dataIndex.length = true) →
    ∃ s1, s.runOps ops = .ok s1 ∧ GoodProps s1 ∧
      s1.dataIndex.length = s.dataIndex.length := by
  induction ops with
  | nil => exact fun s hs _ => ⟨s, rfl, hs, rfl⟩
  | cons op ops ih =>
    intro s hs hargs
    obtain ⟨s1, hok, hs1, hlen1⟩ :=
      goodProps_applyOp s op hs (hargs op (List.mem_cons_self op ops))
    obtain ⟨s2, hok2, hs2, hlen2⟩ := ih s1 hs1 (by
      intro o ho
      rw [hlen1]
      exact hargs o (List.mem_cons_of_mem op ho))
    refine ⟨s2, ?_, hs2, by omega⟩
    rw [SparseSet.runOps, hok]
    exact hok2

/-- Claim C5: the SparseSet bidirectional invariant — for every id whose
sparse entry is not the sentinel, the dense slot it points at holds that
id, and the dense array's length equals the number of non-sentinel sparse
entries — holds initially and is preserved by every sequence of insert,
erase and clear operations with arguments in `[0, EntityCount)` (the
empty sequence gives the initial state). -/
theorem sparseSet_invariant_preserved (entityCount : ℕ) (ops : List SparseOp)
    (hops : ∀ op ∈ ops, op.argOk entityCount = true) :
    ∃ s1, (SparseSet.init entityCount).runOps ops = .ok s1 ∧
      (∀ (id i : ℕ), s1.dataIndex[id]? = some (some i) → s1.data[i]? = some id) ∧
      s1.data.length = List.countP (fun o => o.isSome) s1.dataIndex := by
  obtain ⟨s1, hrun, hgood, hlen⟩ := goodProps_runOps ops (SparseSet.init entityCount)
    (goodProps_init entityCount) (by simpa [SparseSet.init] using hops)
  exact ⟨s1, hrun, hgood.2.1, hgood.1⟩

/-- Witness for claim C5 at the spec's SparseSet scenario ops. -/
theorem sparseSet_invariant_preserved_witness :
    (∀ op ∈ ([.insert 7, .insert 3, .insert 15, .erase 3, .clear, .insert 2] :
        List SparseOp), op.argOk 16 = true) ∧
    (∃ s1, (SparseSet.init 16).runOps
        [.insert 7, .insert 3, .insert 15, .erase 3, .clear, .insert 2] = .ok s1 ∧
      (∀ (id i : ℕ), s1.dataIndex[id]? = some (some i) → s1.data[i]? = some id) ∧
      s1.data.length = List.countP (fun o => o.isSome) s1.dataIndex) :=
  ⟨by decide, sparseSet_invariant_preserved 16 _ (by decide)⟩

/-! ## Component store lemmas -/

theorem aligned_iff {T : Type} (s : Component T) :
    s.aligned = true ↔ GoodProps s.entities ∧ s.data.length = s.entities.data.length := by
  unfold Component.aligned
  rw [Bool.and_eq_true, beq_iff_eq, SparseSet.good_iff]

theorem Component.get?_eq {T : Type} (s : Component T) (e : ℕ) :
    s.get? e = (s.entities.dataIndex.getD e none).elim none fun i => s.data[i]? := by
  unfold Component.get?
  cases s.entities.dataIndex.getD e none <;> rfl

theorem Component.setAt_eq {T : Type} (s : Component T) (e : ℕ) (v : T) :
    s.setAt e v = (s.entities.dataIndex.getD e none).elim s fun i =>
      ⟨s.entities, s.data.set i v⟩ := by
  unfold Component.setAt
  cases s.entities.dataIndex.getD e none <;> rfl

theorem SparseSet.contains_iff (s : SparseSet) (v : ℕ) :
    s.contains v = true ↔ ∃ i, s.dataIndex.getD v none = some i := by
  unfold SparseSet.contains
  by_cases hl : s.dataIndex.length ≤ v
  · rw [if_pos hl]
    constructor
    · intro hh
      exact absurd hh (by simp)
    · rintro ⟨i, hi⟩
      rw [List.getD_eq_getElem?_getD, List.getElem?_eq_none (by omega)] at hi
      simp at hi
  · rw [if_neg hl]
    cases hx : s.dataIndex.getD v none with
    | none => simp
    | some i => simp

/-- Claim C7: inserting an already present id appends a second value entry
while the internal SparseSet no-ops the duplicate registration, leaving
the value array one element longer than the dense id array on an aligned
store, with `size()` unchanged. -/
theorem component_insert_no_dedup {T : Type} (s : Component T) (e : ℕ) (v : T)
    (hpres : s.containsE e = true)
    (hal : s.data.length = s.entities.data.length) :
    ∃ s1, s.insert e v = .ok s1 ∧
      s1.entities = s.entities ∧
      s1.data = s.data ++ [v] ∧
      s1.data.length = s1.entities.data.length + 1 ∧
      s1.size = s.size := by
  unfold Component.containsE SparseSet.contains at hpres
  by_cases hl : s.entities.dataIndex.length ≤ e
  · rw [if_pos hl] at hpres
    exact absurd hpres (by simp)
  · rw [if_neg hl] at hpres
    refine ⟨⟨s.entities, s.data ++ [v]⟩, ?_, rfl, rfl, by simp [hal], rfl⟩
    unfold Component.insert SparseSet.insert
    rw [if_neg hl, if_pos hpres]
    rfl

/-- Sparse and dense components of `SparseSet.eraseCore` on a present id,
spelled out, together with the facts about the last dense element the
swap-and-pop uses. -/
theorem eraseCore_spec (s : SparseSet) (v index : ℕ) (hg : GoodProps s)
    (hentry : s.dataIndex.getD v none = some index) :
    ∃ lastValue,
      s.data[s.data.length - 1]? = some lastValue ∧
      s.dataIndex[lastValue]? = some (some (s.data.length - 1)) ∧
      s.data[index]? = some v ∧
      (s.eraseCore v).dataIndex = (s.dataIndex.set lastValue (some index)).set v none ∧
      (s.eraseCore v).data = (s.data.set index lastValue).dropLast := by
  obtain ⟨hcount, hfwd, hbwd⟩ := hg
  have hv : v < s.dataIndex.length := by
    by_contra hh
    rw [List.getD_eq_getElem?_getD, List.getElem?_eq_none (by omega)] at hentry
    simp at hentry
  have hventry : s.dataIndex[v]? = some (some index) := by
    rw [List.getD_eq_getElem?_getD, List.getElem?_eq_getElem hv] at hentry
    rw [List.getElem?_eq_getElem hv]
    simpa using hentry
  have hdv : s.data[index]? = some v := hfwd v index hventry
  have hindex : index < s.data.length := (List.getElem?_eq_some.mp hdv).1
  have hlastget : s.data[s.data.length - 1]? = some (s.data.getLastD 0) := by
    rw [List.getLastD_eq_getLast?, List.getLast?_eq_getElem?,
      List.getElem?_eq_getElem (by omega)]
    simp
  refine ⟨s.data.getLastD 0, hlastget, hbwd _ _ hlastget, hdv, ?_, ?_⟩
  · unfold SparseSet.eraseCore
    rw [hentry]
  · unfold SparseSet.eraseCore
    rw [hentry]

/-- Claim C6: on an aligned store, erase of a present id swap-and-pops the
value array using the pre-erase sparse index, so every other id keeps its
original component value; erase of an absent id is a no-op. -/
theorem component_erase_sync {T : Type} [Inhabited T] (s : Component T) (e : ℕ)
    (hal : s.aligned = true) :
    (s.containsE e = true → ∀ e2, e2 ≠ e → (s.erase e).get? e2 = s.get? e2) ∧
    (s.containsE e = false → s.erase e = s) := by
  obtain ⟨hg, hlen⟩ := (aligned_iff s).mp hal
  constructor
  · intro hpres e2 hne
    obtain ⟨index, hentry⟩ : ∃ index, s.entities.dataIndex.getD e none = some index :=
      (SparseSet.contains_iff _ _).mp hpres
    obtain ⟨lastValue, hlastget, hblast, hdv, hsparse, _⟩ :=
      eraseCore_spec s.entities e index hg hentry
    obtain ⟨hcount, hfwd, hbwd⟩ := hg
    have hindex : index < s.entities.data.length := (List.getElem?_eq_some.mp hdv).1
    have hlvlt : lastValue < s.entities.dataIndex.length :=
      (List.getElem?_eq_some.mp hblast).1
    -- the new sparse lookup for any id other than the erased one
    have hnew : ((s.entities.dataIndex.set lastValue (some index)).set e none).getD e2 none
        = if e2 = lastValue then some index else s.entities.dataIndex.getD e2 none := by
      by_cases h2 : e2 = lastValue
      · subst h2
        rw [if_pos rfl, List.getD_eq_getElem?_getD,
          List.getElem?_set_ne (fun hh => hne hh.symm),
          List.getElem?_set_self (by simpa using hlvlt)]
        rfl
      · rw [if_neg h2, List.getD_eq_getElem?_getD,
          List.getElem?_set_ne (fun hh => hne hh.symm),
          List.getElem?_set_ne (fun hh => h2 hh.symm), ← List.getD_eq_getElem?_getD]
    have herase : (index < s.data.length - 1 ∧ s.erase e = ⟨s.entities.eraseCore e,
        ((s.data.set index (s.data.getD (s.data.length - 1) default)).set
          (s.data.length - 1) (s.data.getD index default)).dropLast⟩) ∨
        (index = s.data.length - 1 ∧
          s.erase e = ⟨s.entities.eraseCore e, s.data.dropLast⟩) := by
      unfold Component.erase
      rw [Component.containsE] at hpres
      rw [hpres]
      simp only [Bool.not_true, Bool.false_eq_true, if_false, hentry]
      by_cases hcase : index < s.data.length - 1
      · left
        rw [if_pos hcase]
        exact ⟨hcase, rfl⟩
      · right
        have hieq : index = s.data.length - 1 := by omega
        rw [if_neg hcase]
        exact ⟨hieq, rfl⟩
    -- lookups into the swapped-and-popped value vector, away from the swap
    have hdata1 : ∀ (d1 : List T), d1.length = s.data.length →
        (∀ i2 : ℕ, i2 ≠ index → i2 ≠ s.data.length - 1 → d1[i2]? = s.data[i2]?) →
        ∀ i2 : ℕ, i2 ≠ index → i2 ≠ s.data.length - 1 →
          (d1.dropLast)[i2]? = s.data[i2]? := by
      intro d1 hd1len hd1 i2 h2 h3
      rw [List.getElem?_dropLast, hd1len]
      by_cases h4 : i2 < s.data.length - 1
      · rw [if_pos h4]
        exact hd1 i2 h2 h3
      · rw [if_neg h4, eq_comm, List.getElem?_eq_none]
        omega
    by_cases hcase2 : e2 = lastValue
    · -- the swapped element: its value moved to the freed slot
      subst hcase2
      have hrhs : s.get? e2 = s.data[s.data.length - 1]? := by
        rw [Component.get?_eq, List.getD_eq_getElem?_getD, hblast]
        simp [Option.elim]
        rw [hlen]
      rcases herase with ⟨hlt, hE⟩ | ⟨hieq, hE⟩
      · rw [hE, Component.get?_eq]
        simp only
        rw [hsparse, hnew, if_pos rfl]
        simp only [Option.elim]
        rw [List.getElem?_dropLast]
        simp only [List.length_set]
        rw [if_pos hlt, List.getElem?_set_ne (by omega : s.data.length - 1 ≠ index),
          List.getElem?_set_self (by omega), hrhs,
          List.getD_eq_getElem?_getD, List.getElem?_eq_getElem (by omega)]
        simp
      · -- index at the last slot forces e = lastValue, contradicting e2 ≠ e
        exfalso
        have he_last : s.entities.data[index]? = some e2 := by
          rw [show index = s.entities.data.length - 1 by omega]
          exact hlastget
        rw [hdv] at he_last
        have hee : e = e2 := by simpa using he_last
        exact hne hee.symm
    · -- any other id: sparse entry untouched, value slot untouched
      have hlhs : (s.erase e).get? e2
          = (s.entities.dataIndex.getD e2 none).elim none
              fun i => (s.erase e).data[i]? := by
        rcases herase with ⟨hlt, hE⟩ | ⟨hieq, hE⟩ <;>
          rw [hE, Component.get?_eq] <;> simp only <;>
          rw [hsparse, hnew, if_neg hcase2]
      rw [hlhs, Component.get?_eq]
      cases hold : s.entities.dataIndex.getD e2 none with
      | none => rfl
      | some i2 =>
        simp only [Option.elim]
        have he2lt : e2 < s.entities.dataIndex.length := by
          by_contra hh
          rw [List.getD_eq_getElem?_getD, List.getElem?_eq_none (by omega)] at hold
          simp at hold
        have hentry2 : s.entities.dataIndex[e2]? = some (some i2) := by
          rw [List.getD_eq_getElem?_getD, List.getElem?_eq_getElem he2lt] at hold
          rw [List.getElem?_eq_getElem he2lt]
          simpa using hold
        have hdi2 : s.entities.data[i2]? = some e2 := hfwd e2 i2 hentry2
        have hi2ne : i2 ≠ index := by
          intro hh
          rw [hh, hdv] at hdi2
          exact hne (by simpa using hdi2.symm)
        have hi2nl : i2 ≠ s.data.length - 1 := by
          intro hh
          rw [hlen] at hh
          rw [hh, hlastget] at hdi2
          exact hcase2 (by simpa using hdi2.symm)
        rcases herase with ⟨hlt, hE⟩ | ⟨hieq, hE⟩
        · rw [hE]
          simp only
          refine hdata1 _ (by simp) ?_ i2 hi2ne hi2nl
          intro i3 h3 h4
          rw [List.getElem?_set_ne (fun hh => h4 hh.symm),
            List.getElem?_set_ne (fun hh => h3 hh.symm)]
        · rw [hE]
          simp only
          refine hdata1 _ rfl ?_ i2 hi2ne hi2nl
          intro i3 _ _
          rfl
  · intro habs
    unfold Component.erase
    rw [Component.containsE] at habs
    rw [habs]
    simp

/-! ## wrapCoordinate lemmas -/

theorem wrapUp_spec (v m r : ℚ) (hr : 0 < r) :
    ∃ k : ℕ, wrapUp v m r = v + k * r ∧ m ≤ wrapUp v m r ∧
      (m ≤ v → wrapUp v m r = v) ∧ (v < m → wrapUp v m r < m + r) := by
  induction v, m, r using wrapUp.induct with
  | case1 v m r h ih =>
    obtain ⟨k, hk, hm, _, hub⟩ := ih h.1
    rw [wrapUp, dif_pos h]
    refine ⟨k + 1, by push_cast; rw [hk]; ring, hm, ?_, ?_⟩
    · intro hh
      exact absurd hh (not_le.mpr h.2)
    · intro _
      by_cases h2 : v + r < m
      · exact hub h2
      · rw [(by rw [wrapUp, dif_neg] <;> simp_all : wrapUp (v + r) m r = v + r)]
        linarith [h.2]
  | case2 v m r h =>
    rw [wrapUp, dif_neg h]
    have hge : m ≤ v := by
      by_contra hh
      exact h ⟨hr, not_le.mp hh⟩
    exact ⟨0, by ring, hge, fun _ => rfl, fun hh => absurd hh (not_lt.mpr hge)⟩

theorem wrapDown_spec (v M r : ℚ) (hr : 0 < r) :
    ∃ k : ℕ, wrapDown v M r = v - k * r ∧ wrapDown v M r < M ∧
      (M - r ≤ v → M - r ≤ wrapDown v M r) := by
  induction v, M, r using wrapDown.induct with
  | case1 v M r h ih =>
    obtain ⟨k, hk, hM, hlb⟩ := ih h.1
    rw [wrapDown, dif_pos h]
    refine ⟨k + 1, by push_cast; rw [hk]; ring, hM, ?_⟩
    intro _
    exact hlb (by linarith [h.2])
  | case2 v M r h =>
    rw [wrapDown, dif_neg h]
    have hlt : v < M := by
      by_contra hh
      exact h ⟨hr, not_lt.mp hh⟩
    exact ⟨0, by ring, hlt, fun hh => hh⟩

theorem wrapCoordinate_spec (v mn mx : ℚ) (h : mn < mx) :
    mn ≤ wrapCoordinate v mn mx ∧ wrapCoordinate v mn mx < mx ∧
      ∃ k : ℤ, wrapCoordinate v mn mx = v + k * (mx - mn) := by
  have hr : 0 < mx - mn := by linarith
  unfold wrapCoordinate
  rw [if_neg (not_le.mpr hr)]
  obtain ⟨k1, hk1, hm1, _, _⟩ := wrapUp_spec v mn (mx - mn) hr
  obtain ⟨k2, hk2, hM2, hlb2⟩ := wrapDown_spec (wrapUp v mn (mx - mn)) mx (mx - mn) hr
  refine ⟨?_, hM2, ⟨(k1 : ℤ) - (k2 : ℤ), ?_⟩⟩
  · have := hlb2 (by linarith)
    linarith
  · rw [hk2, hk1]
    push_cast
    ring

/-- The value of `wrapCoordinate` is determined by membership in
`[mn, mx)` together with congruence modulo the range. -/
theorem wrapCoordinate_eq_of (v mn mx t : ℚ) (h : mn < mx) (ht1 : mn ≤ t)
    (ht2 : t < mx) (k : ℤ) (hk : t = v + k * (mx - mn)) :
    wrapCoordinate v mn mx = t := by
  obtain ⟨h1, h2, k1, hw⟩ := wrapCoordinate_spec v mn mx h
  have hdiff : wrapCoordinate v mn mx - t = ((k1 - k : ℤ) : ℚ) * (mx - mn) := by
    rw [hw, hk]
    push_cast
    ring
  have hb1 : -(mx - mn) < ((k1 - k : ℤ) : ℚ) * (mx - mn) := by
    rw [← hdiff]
    linarith
  have hb2 : ((k1 - k : ℤ) : ℚ) * (mx - mn) < mx - mn := by
    rw [← hdiff]
    linarith
  have hr : (0 : ℚ) < mx - mn := by linarith
  have hc1 : (-1 : ℚ) < ((k1 - k : ℤ) : ℚ) := by
    nlinarith
  have hc2 : ((k1 - k : ℤ) : ℚ) < 1 := by
    nlinarith
  have hz : k1 - k = 0 := by
    have h1i : (-1 : ℤ) < k1 - k := by exact_mod_cast hc1
    have h2i : k1 - k < 1 := by exact_mod_cast hc2
    omega
  have : k1 = k := by omega
  rw [hw, this, hk]

/-! ## Pointwise characterization of the store-iterating systems -/

theorem getD_some_iff (l : List (Option ℕ)) (e i : ℕ) :
    l.getD e none = some i ↔ l[e]? = some (some i) := by
  rw [List.getD_eq_getElem?_getD]
  cases h : l[e]? with
  | none => simp
  | some o => simp

theorem goodProps_nodup (s : SparseSet) (hg : GoodProps s) : s.data.Nodup := by
  obtain ⟨-, -, hbwd⟩ := hg
  rw [List.nodup_iff_injective_getElem]
  intro i j hij
  simp only at hij
  have hi := i.isLt
  have hj := j.isLt
  have h1 := hbwd (i : ℕ) s.data[(i : ℕ)] (List.getElem?_eq_getElem hi)
  have h2 := hbwd (j : ℕ) s.data[(j : ℕ)] (List.getElem?_eq_getElem hj)
  rw [show s.data[(i : ℕ)] = s.data[(j : ℕ)] from hij, h2] at h1
  have hji : (j : ℕ) = (i : ℕ) := by simpa using h1
  exact Fin.ext hji.symm

theorem Component.setAt_entities {T : Type} (s : Component T) (e : ℕ) (v : T) :
    (s.setAt e v).entities = s.entities := by
  rw [Component.setAt_eq]
  cases s.entities.dataIndex.getD e none <;> rfl

theorem containsE_false_get?_none {T : Type} (s : Component T) (e : ℕ)
    (h : s.containsE e = false) : s.get? e = none := by
  rw [Component.get?_eq]
  unfold Component.containsE SparseSet.contains at h
  by_cases hl : s.entities.dataIndex.length ≤ e
  · rw [List.getD_eq_getElem?_getD, List.getElem?_eq_none hl]
    rfl
  · rw [if_neg hl] at h
    cases hx : s.entities.dataIndex.getD e none with
    | none => rfl
    | some i => rw [hx] at h; simp at h

theorem get?_setAt_self {T : Type} (s : Component T) (e : ℕ) (v : T) :
    (s.setAt e v).get? e = (s.get? e).map fun _ => v := by
  rw [Component.setAt_eq]
  cases h : s.entities.dataIndex.getD e none with
  | none =>
    simp only [Option.elim]
    rw [Component.get?_eq, h]
    rfl
  | some i =>
    simp only [Option.elim]
    show (Component.get? ⟨s.entities, s.data.set i v⟩ e) = _
    rw [Component.get?_eq, Component.get?_eq]
    show (s.entities.dataIndex.getD e none).elim none (fun j => (s.data.set i v)[j]?) = _
    rw [h]
    simp only [Option.elim]
    rw [List.getElem?_set]
    by_cases hi : i < s.data.length
    · rw [if_pos rfl, if_pos hi, List.getElem?_eq_getElem hi]
      rfl
    · rw [if_pos rfl, if_neg hi, List.getElem?_eq_none (by omega)]
      rfl

theorem get?_setAt_ne {T : Type} (s : Component T) (hg : GoodProps s.entities)
    (e e2 : ℕ) (v : T) (hne : e2 ≠ e) : (s.setAt e v).get? e2 = s.get? e2 := by
  obtain ⟨-, hfwd, -⟩ := hg
  rw [Component.setAt_eq]
  cases h : s.entities.dataIndex.getD e none with
  | none => rfl
  | some i =>
    simp only [Option.elim]
    show (Component.get? ⟨s.entities, s.data.set i v⟩ e2) = _
    rw [Component.get?_eq, Component.get?_eq]
    show (s.entities.dataIndex.getD e2 none).elim none (fun j => (s.data.set i v)[j]?) = _
    cases h2 : s.entities.dataIndex.getD e2 none with
    | none => rfl
    | some i2 =>
      simp only [Option.elim]
      have hie : s.entities.data[i]? = some e := hfwd e i ((getD_some_iff _ _ _).mp h)
      have hie2 : s.entities.data[i2]? = some e2 := hfwd e2 i2 ((getD_some_iff _ _ _).mp h2)
      have hne2 : i ≠ i2 := by
        intro hh
        rw [hh, hie2] at hie
        exact hne (by simpa using hie)
      rw [List.getElem?_set_ne hne2]

theorem step_get?_self (u : Option Vec2 → Vec2 → Vec2) (st : Component Vec2)
    (ev : ℕ × Vec2) :
    (if st.containsE ev.1 then st.setAt ev.1 (u (st.get? ev.1) ev.2) else st).get? ev.1
      = (st.get? ev.1).map fun p => u (some p) ev.2 := by
  by_cases hc : st.containsE ev.1
  · rw [if_pos hc, get?_setAt_self]
    cases h : st.get? ev.1 with
    | none => rfl
    | some p => simp
  · rw [if_neg hc, containsE_false_get?_none st ev.1 (by simpa using hc)]
    rfl

theorem fold_step_get? (u : Option Vec2 → Vec2 → Vec2) :
    ∀ (l : List (ℕ × Vec2)) (st : Component Vec2), GoodProps st.entities →
    (l.map Prod.fst).Nodup →
    ((l.foldl (fun st2 ev => if st2.containsE ev.1 then
        st2.setAt ev.1 (u (st2.get? ev.1) ev.2) else st2) st).entities = st.entities ∧
     ∀ e : ℕ, (l.foldl (fun st2 ev => if st2.containsE ev.1 then
        st2.setAt ev.1 (u (st2.get? ev.1) ev.2) else st2) st).get? e =
      match l.find? (fun ev => ev.1 == e) with
      | some ev => (st.get? e).map fun p => u (some p) ev.2
      | none => st.get? e) := by
  intro l
  induction l with
  | nil => exact fun st _ _ => ⟨rfl, fun e => rfl⟩
  | cons ev0 t ih =>
    intro st hg hnd
    have hstep_ents : ∀ (st2 : Component Vec2) (ev : ℕ × Vec2),
        ((if st2.containsE ev.1 then st2.setAt ev.1 (u (st2.get? ev.1) ev.2)
          else st2)).entities = st2.entities := by
      intro st2 ev
      by_cases hc : st2.containsE ev.1
      · rw [if_pos hc, Component.setAt_entities]
      · rw [if_neg hc]
    rw [List.foldl_cons]
    have hg1 : GoodProps (if st.containsE ev0.1 then
        st.setAt ev0.1 (u (st.get? ev0.1) ev0.2) else st).entities := by
      rw [hstep_ents]
      exact hg
    have hnd1 : (t.map Prod.fst).Nodup := (List.nodup_cons.mp (by simpa using hnd)).2
    obtain ⟨ihents, ihget⟩ := ih _ hg1 hnd1
    refine ⟨by rw [ihents, hstep_ents], ?_⟩
    intro e
    by_cases he : ev0.1 = e
    · rw [List.find?_cons_of_pos _ (by simpa using he)]
      have hnotin : e ∉ t.map Prod.fst := by
        rw [← he]
        exact (List.nodup_cons.mp (by simpa using hnd)).1
      have hfind_t : t.find? (fun ev => ev.1 == e) = none := by
        rw [List.find?_eq_none]
        intro x hx
        simp only [beq_iff_eq]
        intro hh
        exact hnotin (by rw [← hh]; exact List.mem_map_of_mem Prod.fst hx)
      rw [ihget e, hfind_t, ← he]
      exact step_get?_self u st ev0
    · have hstep_ne : (if st.containsE ev0.1 then
          st.setAt ev0.1 (u (st.get? ev0.1) ev0.2) else st).get? e = st.get? e := by
        by_cases hc : st.containsE ev0.1
        · rw [if_pos hc, get?_setAt_ne st hg ev0.1 e _ (fun hh => he hh.symm)]
        · rw [if_neg hc]
      rw [ihget e, List.find?_cons_of_neg _ (by simpa using he)]
      cases t.find? (fun ev => ev.1 == e) with
      | none => exact hstep_ne
      | some ev2 => rw [hstep_ne]

theorem find?_zip_of_nodup {T : Type} :
    ∀ (j : ℕ) (ids : List ℕ) (vals : List T) (e : ℕ) (v : T), ids.Nodup →
      ids[j]? = some e → vals[j]? = some v →
      (ids.zip vals).find? (fun ev => ev.1 == e) = some (e, v) := by
  intro j
  induction j with
  | zero =>
    intro ids vals e v _ hi hv
    cases ids with
    | nil => simp at hi
    | cons a t =>
      cases vals with
      | nil => simp at hv
      | cons b tv =>
        have ha : a = e := by simpa using hi
        have hb : b = v := by simpa using hv
        subst ha
        subst hb
        rw [List.zip_cons_cons, List.find?_cons_of_pos _ (by simp)]
  | succ j ih =>
    intro ids vals e v hnd hi hv
    cases ids with
    | nil => simp at hi
    | cons a t =>
      cases vals with
      | nil => simp at hv
      | cons b tv =>
        simp only [List.getElem?_cons_succ] at hi hv
        have hmem : e ∈ t := List.getElem?_mem hi
        have hane : a ≠ e := by
          intro hh
          subst hh
          exact (List.nodup_cons.mp hnd).1 hmem
        rw [List.zip_cons_cons, List.find?_cons_of_neg _ (by simpa using hane)]
        exact ih t tv e v (List.nodup_cons.mp hnd).2 hi hv

/-- The iteration order of a component store finds exactly the stored
value of an id, or nothing when the id is absent. -/
theorem pairs_find? {T : Type} (s : Component T) (hg : GoodProps s.entities)
    (hlen : s.data.length = s.entities.data.length) (e : ℕ) :
    s.pairs.find? (fun ev => ev.1 == e) = (s.get? e).map fun v => (e, v) := by
  obtain ⟨hcount, hfwd, hbwd⟩ := hg
  cases hget : s.get? e with
  | none =>
    rw [Option.map_none']
    rw [List.find?_eq_none]
    intro x hx
    simp only [beq_iff_eq]
    intro hh
    have hmem : x.1 ∈ s.entities.data := (List.of_mem_zip hx).1
    obtain ⟨j, hj⟩ := List.getElem?_of_mem hmem
    rw [hh] at hj
    have hsp := hbwd j e hj
    rw [Component.get?_eq, List.getD_eq_getElem?_getD, hsp] at hget
    simp only [Option.getD_some, Option.elim] at hget
    have hle : s.data.length ≤ j := List.getElem?_eq_none_iff.mp hget
    have hjlt := (List.getElem?_eq_some.mp hj).1
    omega
  | some v =>
    rw [Component.get?_eq] at hget
    cases hsp : s.entities.dataIndex.getD e none with
    | none => rw [hsp] at hget; simp [Option.elim] at hget
    | some j =>
      rw [hsp] at hget
      simp only [Option.elim] at hget
      have hj : s.entities.data[j]? = some e := hfwd e j ((getD_some_iff _ _ _).mp hsp)
      exact find?_zip_of_nodup j s.entities.data s.data e v
        (goodProps_nodup _ ⟨hcount, hfwd, hbwd⟩) hj hget

theorem containsE_get?_isSome {T : Type} (s : Component T) (hg : GoodProps s.entities)
    (hlen : s.data.length = s.entities.data.length) (e : ℕ)
    (hc : s.containsE e = true) : ∃ p, s.get? e = some p := by
  obtain ⟨i, hi⟩ := (SparseSet.contains_iff _ _).mp hc
  have hd : s.entities.data[i]? = some e := hg.2.1 e i ((getD_some_iff _ _ _).mp hi)
  have hilt : i < s.entities.data.length := (List.getElem?_eq_some.mp hd).1
  rw [Component.get?_eq, hi]
  simp only [Option.elim]
  rw [List.getElem?_eq_getElem (by omega)]
  exact ⟨_, rfl⟩

theorem containsE_eq_of_entities {T : Type} {s s2 : Component T}
    (h : s.entities = s2.entities) (e : ℕ) : s.containsE e = s2.containsE e := by
  unfold Component.containsE
  rw [h]

theorem pairs_map_fst {T : Type} (s : Component T)
    (hlen : s.data.length = s.entities.data.length) :
    s.pairs.map Prod.fst = s.entities.data :=
  List.map_fst_zip _ _ (by omega)

/-- Splitting the `handlePlayerInput` fold into its store effect and its
diagnostic log: the log collects, in iteration order, the ids that carry
an input but no velocity, judged against the (membership-stable) initial
velocity store. -/
theorem handlePlayerInput_fold (l : List (ℕ × Vec2)) :
    ∀ (vs : Component Vec2) (log : List ℕ),
    l.foldl handlePlayerInputStep (vs, log) =
      (l.foldl (fun st2 ev => if st2.containsE ev.1 then
          st2.setAt ev.1 ((fun _ v => (⟨v.x, v.y⟩ : Vec2)) (st2.get? ev.1) ev.2)
        else st2) vs,
        log ++ (l.filter fun ev => !(vs.containsE ev.1)).map Prod.fst) := by
  induction l with
  | nil =>
    intro vs log
    simp
  | cons ev t ih =>
    intro vs log
    rw [List.foldl_cons, List.foldl_cons]
    by_cases hc : vs.containsE ev.1
    · rw [show handlePlayerInputStep (vs, log) ev =
          (vs.setAt ev.1 ⟨ev.2.x, ev.2.y⟩, log) from by
        simp [handlePlayerInputStep, hc]]
      rw [ih, if_pos hc]
      have hfe : (t.filter fun ev2 => !((vs.setAt ev.1 ⟨ev.2.x, ev.2.y⟩).containsE ev2.1))
          = t.filter fun ev2 => !(vs.containsE ev2.1) := by
        apply List.filter_congr
        intro x _
        rw [containsE_eq_of_entities (Component.setAt_entities vs ev.1 _) x.1]
      rw [hfe, List.filter_cons, if_neg (by simp [hc])]
    · rw [show handlePlayerInputStep (vs, log) ev = (vs, log ++ [ev.1]) from by
        simp [handlePlayerInputStep, hc]]
      rw [ih, if_neg hc, List.filter_cons, if_pos (by simp [hc])]
      simp

/-- Claim C9: for every `(id, inputVector)` pair in the PlayerInput store,
an id owning a Velocity gets that Velocity overwritten with the input
verbatim; an id without Velocity leaves every store untouched and is
reported on the diagnostic channel; no other store is modified and the
tick continues (the function is total).  The diagnostics are exactly the
input-bearing ids lacking Velocity, in iteration order. -/
theorem handlePlayerInput_spec (store : EntityStore)
    (hvel : store.velocities.aligned = true)
    (hinp : store.playerInputs.aligned = true) :
    (∀ (e : ℕ) (inp : Vec2), store.playerInputs.get? e = some inp →
      store.velocities.containsE e = true →
      (handlePlayerInput store).1.velocities.get? e = some ⟨inp.x, inp.y⟩) ∧
    (∀ e : ℕ,
      store.playerInputs.containsE e = false ∨ store.velocities.containsE e = false →
      (handlePlayerInput store).1.velocities.get? e = store.velocities.get? e) ∧
    (handlePlayerInput store).1.positions = store.positions ∧
    (handlePlayerInput store).1.playerInputs = store.playerInputs ∧
    (handlePlayerInput store).1.hitCounters = store.hitCounters ∧
    (handlePlayerInput store).1.polygons = store.polygons ∧
    (handlePlayerInput store).2 =
      (store.playerInputs.pairs.filter
        fun ev => !(store.velocities.containsE ev.1)).map Prod.fst := by
  obtain ⟨hgv, hlv⟩ := (aligned_iff _).mp hvel
  obtain ⟨hgi, hli⟩ := (aligned_iff _).mp hinp
  have hnd : (store.playerInputs.pairs.map Prod.fst).Nodup := by
    rw [pairs_map_fst _ hli]
    exact goodProps_nodup _ hgi
  have hfold := handlePlayerInput_fold store.playerInputs.pairs store.velocities []
  have hm1 : (handlePlayerInput store).1.velocities
      = store.playerInputs.pairs.foldl (fun st2 ev => if st2.containsE ev.1 then
          st2.setAt ev.1 ((fun _ v => (⟨v.x, v.y⟩ : Vec2)) (st2.get? ev.1) ev.2)
        else st2) store.velocities := by
    unfold handlePlayerInput
    rw [hfold]
  have hm2 : (handlePlayerInput store).2
      = (store.playerInputs.pairs.filter
          fun ev => !(store.velocities.containsE ev.1)).map Prod.fst := by
    unfold handlePlayerInput
    rw [hfold]
    simp
  have hm3 : (handlePlayerInput store).1.positions = store.positions := by
    unfold handlePlayerInput
    rw [hfold]
  have hm4 : (handlePlayerInput store).1.playerInputs = store.playerInputs := by
    unfold handlePlayerInput
    rw [hfold]
  have hm5 : (handlePlayerInput store).1.hitCounters = store.hitCounters := by
    unfold handlePlayerInput
    rw [hfold]
  have hm6 : (handlePlayerInput store).1.polygons = store.polygons := by
    unfold handlePlayerInput
    rw [hfold]
  obtain ⟨hents, hget⟩ := fold_step_get? (fun _ v => (⟨v.x, v.y⟩ : Vec2))
    store.playerInputs.pairs store.velocities hgv hnd
  refine ⟨?_, ?_, hm3, hm4, hm5, hm6, hm2⟩
  · intro e inp hin hc
    rw [hm1, hget e, pairs_find? _ hgi hli e, hin]
    obtain ⟨p, hp⟩ := containsE_get?_isSome _ hgv hlv e hc
    rw [hp]
    rfl
  · intro e hcase
    rw [hm1, hget e]
    rcases hcase with hcase | hcase
    · rw [pairs_find? _ hgi hli e, containsE_false_get?_none _ _ hcase]
      rfl
    · cases hfind : store.playerInputs.pairs.find? (fun ev => ev.1 == e) with
      | none => rfl
      | some ev2 =>
        rw [containsE_false_get?_none _ _ hcase]
        rfl

/-- Claim C4: `updatePositions` adds the velocity to the position of every
id in the Velocity store that also has a Position (one implicit time unit,
no delta-time scaling) and wraps each axis independently with
`wrapCoordinate` over the 240-unit world range; ids lacking a Position
(or carrying no velocity) keep their position unchanged; no other store
is modified; and every wrapped coordinate lies in `[-120, 120)`. -/
theorem updatePositions_spec (store : EntityStore)
    (hvel : store.velocities.aligned = true)
    (hpos : store.positions.aligned = true) :
    (∀ (e : ℕ) (p v : Vec2), store.positions.get? e = some p →
      store.velocities.get? e = some v →
      (updatePositions store).positions.get? e =
        some ⟨wrapCoordinate (p.x + v.x) WORLD_MIN_X WORLD_MAX_X,
          wrapCoordinate (p.y + v.y) WORLD_MIN_Y WORLD_MAX_Y⟩) ∧
    (∀ e : ℕ,
      store.velocities.containsE e = false ∨ store.positions.containsE e = false →
      (updatePositions store).positions.get? e = store.positions.get? e) ∧
    (updatePositions store).velocities = store.velocities ∧
    (updatePositions store).playerInputs = store.playerInputs ∧
    (updatePositions store).hitCounters = store.hitCounters ∧
    (updatePositions store).polygons = store.polygons ∧
    (∀ q : ℚ, WORLD_MIN_X ≤ wrapCoordinate q WORLD_MIN_X WORLD_MAX_X ∧
      wrapCoordinate q WORLD_MIN_X WORLD_MAX_X < WORLD_MAX_X) ∧
    (∀ q : ℚ, WORLD_MIN_Y ≤ wrapCoordinate q WORLD_MIN_Y WORLD_MAX_Y ∧
      wrapCoordinate q WORLD_MIN_Y WORLD_MAX_Y < WORLD_MAX_Y) := by
  obtain ⟨hgv, hlv⟩ := (aligned_iff _).mp hvel
  obtain ⟨hgp, hlp⟩ := (aligned_iff _).mp hpos
  have hnd : (store.velocities.pairs.map Prod.fst).Nodup := by
    rw [pairs_map_fst _ hlv]
    exact goodProps_nodup _ hgv
  have hstep : updatePositionsStep = fun st2 (ev : ℕ × Vec2) =>
      if st2.containsE ev.1 then
        st2.setAt ev.1 ((fun (opt : Option Vec2) (v : Vec2) =>
          (⟨wrapCoordinate ((opt.getD default).x + v.x) WORLD_MIN_X WORLD_MAX_X,
            wrapCoordinate ((opt.getD default).y + v.y) WORLD_MIN_Y WORLD_MAX_Y⟩ :
              Vec2)) (st2.get? ev.1) ev.2)
      else st2 := rfl
  obtain ⟨hents, hget⟩ := fold_step_get?
    (fun (opt : Option Vec2) (v : Vec2) =>
      (⟨wrapCoordinate ((opt.getD default).x + v.x) WORLD_MIN_X WORLD_MAX_X,
        wrapCoordinate ((opt.getD default).y + v.y) WORLD_MIN_Y WORLD_MAX_Y⟩ : Vec2))
    store.velocities.pairs store.positions hgp hnd
  have hres : (updatePositions store).positions =
      store.velocities.pairs.foldl updatePositionsStep store.positions := rfl
  have hbound : WORLD_MIN_X < WORLD_MAX_X := by norm_num [WORLD_MIN_X, WORLD_MAX_X]
  refine ⟨?_, ?_, rfl, rfl, rfl, rfl, ?_, ?_⟩
  · intro e p v hp hv
    rw [hres, hstep, hget e, pairs_find? _ hgv hlv e, hv, hp]
    rfl
  · intro e hcase
    rw [hres, hstep, hget e]
    rcases hcase with hcase | hcase
    · rw [pairs_find? _ hgv hlv e, containsE_false_get?_none _ _ hcase]
      rfl
    · cases hfind : store.velocities.pairs.find? (fun ev => ev.1 == e) with
      | none => rfl
      | some ev2 =>
        rw [containsE_false_get?_none _ _ hcase]
        rfl
  · intro q
    obtain ⟨h1, h2, -⟩ := wrapCoordinate_spec q WORLD_MIN_X WORLD_MAX_X hbound
    exact ⟨h1, h2⟩
  · intro q
    obtain ⟨h1, h2, -⟩ := wrapCoordinate_spec q WORLD_MIN_Y WORLD_MAX_Y
      (by norm_num [WORLD_MIN_Y, WORLD_MAX_Y])
    exact ⟨h1, h2⟩

/-- Witness for claim C4 at the spec's movement-wrap scenario: position
`x = 119`, velocity `x = 5` gives `x = 124 - 240 = -116`. -/
theorem updatePositions_spec_witness :
    scenWrap.velocities.aligned = true ∧ scenWrap.positions.aligned = true ∧
    (updatePositions scenWrap).positions.get? 0 = some ⟨-116, 0⟩ := by
  refine ⟨by decide, by decide, ?_⟩
  have h := (updatePositions_spec scenWrap (by decide) (by decide)).1 0
    ⟨119, 0⟩ ⟨5, 0⟩ rfl rfl
  rw [h]
  show some (⟨wrapCoordinate (119 + 5) WORLD_MIN_X WORLD_MAX_X,
    wrapCoordinate (0 + 0) WORLD_MIN_Y WORLD_MAX_Y⟩ : Vec2) = some ⟨-116, 0⟩
  have hx : wrapCoordinate ((119 : ℚ) + 5) WORLD_MIN_X WORLD_MAX_X = -116 :=
    wrapCoordinate_eq_of _ _ _ _ (by norm_num [WORLD_MIN_X, WORLD_MAX_X])
      (by norm_num [WORLD_MIN_X]) (by norm_num [WORLD_MAX_X]) (-1)
      (by norm_num [WORLD_MIN_X, WORLD_MAX_X])
  have hy : wrapCoordinate ((0 : ℚ) + 0) WORLD_MIN_Y WORLD_MAX_Y = 0 :=
    wrapCoordinate_eq_of _ _ _ _ (by norm_num [WORLD_MIN_Y, WORLD_MAX_Y])
      (by norm_num [WORLD_MIN_Y]) (by norm_num [WORLD_MAX_Y]) 0
      (by norm_num [WORLD_MIN_Y, WORLD_MAX_Y])
  rw [hx, hy]

/-- Witness for claim C9 at the spec's input scenario: input `(1,0)` over
existing velocity `(0,0)` leaves velocity exactly `(1,0)`, and entity 1
(input but no velocity) is reported and skipped. -/
theorem handlePlayerInput_spec_witness :
    scenInput.velocities.aligned = true ∧ scenInput.playerInputs.aligned = true ∧
    (handlePlayerInput scenInput).1.velocities.get? 0 = some ⟨1, 0⟩ ∧
    (handlePlayerInput scenInput).2 = [1] := by
  refine ⟨by decide, by decide, ?_, ?_⟩
  · exact (handlePlayerInput_spec scenInput (by decide) (by decide)).1 0 ⟨1, 0⟩ rfl rfl
  · rw [(handlePlayerInput_spec scenInput (by decide) (by decide)).2.2.2.2.2.2]
    rfl

/-! ## Collision system lemmas -/

theorem sq02_may_intersect_sq13 : sq02.may_intersect [sq13] = true := by
  norm_num [Polygon.may_intersect, Polygon.get_aabb, AxisAlignedBoundingBox.intersects,
    sq02, sq13]

theorem sq02_intersects_sq13 : sq02.intersects sq13 = true := by
  simp only [sq02, sq13, Polygon.intersects, Polygon.checkSeparationWith, Polygon.size,
    Polygon.get_edge_normal, Polygon.project_onto_axis, separatedOn,
    List.range_succ, List.range_zero, List.all_append, List.all_cons, List.all_nil,
    List.length_cons, List.length_nil, List.zip_cons_cons, List.zip_nil_right,
    List.map_cons, List.map_nil, List.foldl_cons, List.foldl_nil,
    List.getD_cons_zero, List.getD_cons_succ]
  norm_num [min_def, max_def]

/-- Per-pair effect of `handleCollisions`: on a confirmed intersecting
ordered pair `(a, b)` with `a < b`, entity `a`'s HitCounter is bumped by
one (`uint32_t` arithmetic, so `% 2 ^ 32`, which is an exact `+ 1` below
the wrap) and, if `a` owns a Velocity, that Velocity becomes `(0, 0)`;
entity `b`'s HitCounter and Velocity are never modified; a pair that
fails the broad phase, the narrow phase, or whose `a` owns no HitCounter
has no effect at all. -/
theorem processPair_spec (hc : Component HitCounter) (vel : Component Vec2)
    (ea : ℕ) (pa : Polygon) (eb : ℕ) (pb : Polygon)
    (hghc : GoodProps hc.entities) (hgvel : GoodProps vel.entities)
    (hab : ea < eb) :
    (pa.may_intersect [pb] = true → pa.intersects pb = true →
      hc.containsE ea = true →
      ((processPair hc vel (ea, pa) (eb, pb)).1.get? ea =
          (hc.get? ea).map (fun c => ⟨(c.hits + 1) % 2 ^ 32⟩) ∧
        (∀ c : HitCounter, hc.get? ea = some c → c.hits + 1 < 2 ^ 32 →
          (processPair hc vel (ea, pa) (eb, pb)).1.get? ea = some ⟨c.hits + 1⟩) ∧
        (vel.containsE ea = true →
          (processPair hc vel (ea, pa) (eb, pb)).2.get? ea =
            (vel.get? ea).map fun _ => ⟨0, 0⟩) ∧
        (vel.containsE ea = false →
          (processPair hc vel (ea, pa) (eb, pb)).2 = vel))) ∧
    ((processPair hc vel (ea, pa) (eb, pb)).1.get? eb = hc.get? eb ∧
      (processPair hc vel (ea, pa) (eb, pb)).2.get? eb = vel.get? eb) ∧
    (pa.may_intersect [pb] = false ∨ pa.intersects pb = false ∨
        hc.containsE ea = false →
      processPair hc vel (ea, pa) (eb, pb) = (hc, vel)) := by
  have hnab : ¬ (eb ≤ ea) := by omega
  have hre : ∀ hmi : pa.may_intersect [pb] = true, ∀ hint : pa.intersects pb = true,
      ∀ hcont : hc.containsE ea = true,
      processPair hc vel (ea, pa) (eb, pb) =
        (hc.setAt ea ⟨(((hc.get? ea).getD default).hits + 1) % 2 ^ 32⟩,
          if vel.containsE ea then vel.setAt ea ⟨0, 0⟩ else vel) := by
    intro hmi hint hcont
    simp only [processPair, hmi, hint, hcont, if_neg hnab, if_true]
    by_cases hv : vel.containsE ea = true
    · simp only [hv, if_true]
    · simp only [eq_false_of_ne_true hv, if_false, Bool.false_eq_true]
  refine ⟨?_, ?_, ?_⟩
  · intro hmi hint hcont
    rw [hre hmi hint hcont]
    refine ⟨?_, ?_, ?_, ?_⟩
    · show (hc.setAt ea _).get? ea = _
      rw [get?_setAt_self]
      cases hg : hc.get? ea with
      | none => rfl
      | some c => simp
    · intro c hcg hlt
      show (hc.setAt ea _).get? ea = _
      rw [get?_setAt_self, hcg]
      simp only [Option.map_some', Option.getD_some]
      rw [Nat.mod_eq_of_lt hlt]
    · intro hv
      show (if vel.containsE ea then vel.setAt ea ⟨0, 0⟩ else vel).get? ea = _
      rw [if_pos hv, get?_setAt_self]
    · intro hv
      show (if vel.containsE ea then vel.setAt ea ⟨0, 0⟩ else vel) = vel
      rw [if_neg (by simp [hv])]
  · by_cases hmi : pa.may_intersect [pb] = true
    · by_cases hint : pa.intersects pb = true
      · by_cases hcont : hc.containsE ea = true
        · rw [hre hmi hint hcont]
          constructor
          · show (hc.setAt ea _).get? eb = _
            rw [get?_setAt_ne hc hghc ea eb _ (by omega)]
          · show (if vel.containsE ea then vel.setAt ea ⟨0, 0⟩ else vel).get? eb = _
            by_cases hv : vel.containsE ea = true
            · rw [if_pos hv, get?_setAt_ne vel hgvel ea eb _ (by omega)]
            · rw [if_neg (by simp [hv])]
        · rw [show processPair hc vel (ea, pa) (eb, pb) = (hc, vel) from by
            simp only [processPair, hmi, hint, if_neg hnab, if_true,
              eq_false_of_ne_true hcont, if_false, Bool.false_eq_true]]
          exact ⟨rfl, rfl⟩
      · rw [show processPair hc vel (ea, pa) (eb, pb) = (hc, vel) from by
          simp only [processPair, hmi, if_neg hnab, if_true,
            eq_false_of_ne_true hint, if_false, Bool.false_eq_true]]
        exact ⟨rfl, rfl⟩
    · rw [show processPair hc vel (ea, pa) (eb, pb) = (hc, vel) from by
        simp only [processPair, if_neg hnab, eq_false_of_ne_true hmi, if_false,
          Bool.false_eq_true]]
      exact ⟨rfl, rfl⟩
  · intro hcase
    rcases hcase with hmi | hint | hcont
    · simp only [processPair, if_neg hnab, hmi, if_false, Bool.false_eq_true]
    · simp only [processPair, if_neg hnab, hint, if_false, Bool.false_eq_true]
      by_cases hmi : pa.may_intersect [pb] = true <;> simp [hmi]
    · simp only [processPair, if_neg hnab, hcont, if_false, Bool.false_eq_true]
      by_cases hmi : pa.may_intersect [pb] = true <;>
        by_cases hint : pa.intersects pb = true <;> simp [hmi, hint]

/-- Claim C3: for every confirmed intersecting pair `(a, b)` with
`a < b` in `handleCollisions`, if `a` owns a HitCounter its count is
incremented by exactly 1 (`uint32_t` increment, exact below the `2^32`
wrap) and, if `a` also owns a Velocity, that Velocity is set to `(0,0)`;
entity `b`'s HitCounter and Velocity are never modified by the pair.
Concretely, for the overlapping squares `[0,2]²` and `[1,3]²` with the
lower id owning a HitCounter at 0 and a Velocity, one collision pass
leaves that HitCounter at 1 and that Velocity at `(0,0)`. -/
theorem collision_effect_spec :
    (∀ (hc : Component HitCounter) (vel : Component Vec2) (ea : ℕ) (pa : Polygon)
      (eb : ℕ) (pb : Polygon), GoodProps hc.entities → GoodProps vel.entities →
      ea < eb →
      (pa.may_intersect [pb] = true → pa.intersects pb = true →
        hc.containsE ea = true →
        ((processPair hc vel (ea, pa) (eb, pb)).1.get? ea =
            (hc.get? ea).map (fun c => ⟨(c.hits + 1) % 2 ^ 32⟩) ∧
          (∀ c : HitCounter, hc.get? ea = some c → c.hits + 1 < 2 ^ 32 →
            (processPair hc vel (ea, pa) (eb, pb)).1.get? ea = some ⟨c.hits + 1⟩) ∧
          (vel.containsE ea = true →
            (processPair hc vel (ea, pa) (eb, pb)).2.get? ea =
              (vel.get? ea).map fun _ => ⟨0, 0⟩) ∧
          (vel.containsE ea = false →
            (processPair hc vel (ea, pa) (eb, pb)).2 = vel))) ∧
      ((processPair hc vel (ea, pa) (eb, pb)).1.get? eb = hc.get? eb ∧
        (processPair hc vel (ea, pa) (eb, pb)).2.get? eb = vel.get? eb)) ∧
    (handleCollisions scenA).hitCounters.get? 0 = some ⟨1⟩ ∧
    (handleCollisions scenA).velocities.get? 0 = some ⟨0, 0⟩ := by
  refine ⟨?_, ?_, ?_⟩
  · intro hc vel ea pa eb pb hghc hgvel hab
    obtain ⟨h1, h2, -⟩ := processPair_spec hc vel ea pa eb pb hghc hgvel hab
    exact ⟨h1, h2⟩
  · have hps : scenA.polygons.pairs = [(0, sq02), (1, sq13)] := rfl
    simp only [handleCollisions, hps, List.foldl_cons, List.foldl_nil]
    simp only [processPair, sq02_may_intersect_sq13, sq02_intersects_sq13]
    norm_num [Component.containsE, SparseSet.contains, Component.setAt,
      Component.get?, scenA, Component.init, SparseSet.init]
  · have hps : scenA.polygons.pairs = [(0, sq02), (1, sq13)] := rfl
    simp only [handleCollisions, hps, List.foldl_cons, List.foldl_nil]
    simp only [processPair, sq02_may_intersect_sq13, sq02_intersects_sq13]
    norm_num [Component.containsE, SparseSet.contains, Component.setAt,
      Component.get?, scenA, Component.init, SparseSet.init]

/-- Witness for claim C3: the general per-pair part applied at the
scenario-A stores and pair, with every hypothesis discharged concretely. -/
theorem collision_effect_spec_witness :
    GoodProps scenA.hitCounters.entities ∧ GoodProps scenA.velocities.entities ∧
    ((0 : ℕ) < 1) ∧
    ((processPair scenA.hitCounters scenA.velocities (0, sq02) (1, sq13)).1.get? 0 =
        (scenA.hitCounters.get? 0).map (fun c => ⟨(c.hits + 1) % 2 ^ 32⟩) ∧
      (processPair scenA.hitCounters scenA.velocities (0, sq02) (1, sq13)).1.get? 1 =
        scenA.hitCounters.get? 1) := by
  have hg1 : GoodProps scenA.hitCounters.entities :=
    ((SparseSet.good_iff _).mp (by decide))
  have hg2 : GoodProps scenA.velocities.entities :=
    ((SparseSet.good_iff _).mp (by decide))
  have h := collision_effect_spec.1 scenA.hitCounters scenA.velocities 0 sq02 1 sq13
    hg1 hg2 (by decide)
  refine ⟨hg1, hg2, by decide, ?_, h.2.1⟩
  exact (h.1 sq02_may_intersect_sq13 sq02_intersects_sq13 (by decide)).1

/-- Broad phase as implemented (amended claim C1): `may_intersect`
compares the polygons' LOCAL-space bounding boxes — the box of the stored
vertices with no Position translation — and a pair whose local boxes do
not overlap is rejected with no effect; `handleCollisions` never reads or
writes the Position store at all, so its outcome is independent of every
entity's Position. -/
theorem broad_phase_local_spec :
    (∀ (pa pb : Polygon) (ba bb : AxisAlignedBoundingBox),
      pa.get_aabb = some ba → pb.get_aabb = some bb →
      pa.may_intersect [pb] = ba.intersects bb) ∧
    (∀ (hc : Component HitCounter) (vel : Component Vec2) (ea : ℕ) (pa : Polygon)
      (eb : ℕ) (pb : Polygon), pa.may_intersect [pb] = false →
      processPair hc vel (ea, pa) (eb, pb) = (hc, vel)) ∧
    (∀ (store : EntityStore) (P : Component Vec2),
      (handleCollisions { store with positions := P }).hitCounters
        = (handleCollisions store).hitCounters ∧
      (handleCollisions { store with positions := P }).velocities
        = (handleCollisions store).velocities) ∧
    (∀ store : EntityStore, (handleCollisions store).positions = store.positions) := by
  refine ⟨?_, ?_, ?_, ?_⟩
  · intro pa pb ba bb hba hbb
    unfold Polygon.may_intersect
    rw [hba]
    simp [hbb]
  · intro hc vel ea pa eb pb hmi
    by_cases hab : eb ≤ ea
    · simp only [processPair, if_pos hab]
    · simp only [processPair, if_neg hab, hmi, if_false, Bool.false_eq_true]
  · intro store P
    exact ⟨rfl, rfl⟩
  · intro store
    rfl

/-- Witness for the amended claim C1: the local boxes of the scenario-A
squares overlap and the pair passes the broad phase; two far-apart local
boxes are rejected with no effect. -/
theorem broad_phase_local_spec_witness :
    (sq02.get_aabb = some ⟨⟨0, 0⟩, ⟨2, 2⟩⟩) ∧
    (sq02.may_intersect [sq13] =
      AxisAlignedBoundingBox.intersects ⟨⟨0, 0⟩, ⟨2, 2⟩⟩ ⟨⟨1, 1⟩, ⟨3, 3⟩⟩) ∧
    (processPair scenA.hitCounters scenA.velocities (0, sqU)
      (1, ⟨[50, 51, 51, 50], [50, 50, 51, 51]⟩) = (scenA.hitCounters, scenA.velocities)) := by
  refine ⟨?_, ?_, ?_⟩
  · norm_num [sq02, Polygon.get_aabb, min_def, max_def]
  · exact broad_phase_local_spec.1 sq02 sq13 ⟨⟨0, 0⟩, ⟨2, 2⟩⟩ ⟨⟨1, 1⟩, ⟨3, 3⟩⟩
      (by norm_num [sq02, Polygon.get_aabb, min_def, max_def])
      (by norm_num [sq13, Polygon.get_aabb, min_def, max_def])
  · exact broad_phase_local_spec.2.1 scenA.hitCounters scenA.velocities 0 sqU 1 _
      (by norm_num [sqU, Polygon.may_intersect, Polygon.get_aabb,
        AxisAlignedBoundingBox.intersects, min_def, max_def])

/-- Counterexample to claim C1 as stated: a store where the two entities'
world-space boxes (spec's Position + local extrema) are disjoint, yet the
pair is NOT rejected — the pass increments the lower entity's HitCounter,
because the code's broad phase ignores Position entirely. -/
theorem broad_phase_world_space_counterexample :
    (∃ wa wb, specWorldAabb ⟨0, 0⟩ sqU = some wa ∧
      specWorldAabb ⟨100, 100⟩ sqU = some wb ∧ wa.intersects wb = false) ∧
    scenFar.positions.get? 0 = some ⟨0, 0⟩ ∧
    scenFar.positions.get? 1 = some ⟨100, 100⟩ ∧
    scenFar.polygons.get? 0 = some sqU ∧
    scenFar.polygons.get? 1 = some sqU ∧
    scenFar.hitCounters.get? 0 = some ⟨0⟩ ∧
    (handleCollisions scenFar).hitCounters.get? 0 = some ⟨1⟩ := by
  refine ⟨⟨⟨⟨0, 0⟩, ⟨1, 1⟩⟩, ⟨⟨100, 100⟩, ⟨101, 101⟩⟩, ?_, ?_, ?_⟩,
    rfl, rfl, rfl, rfl, rfl, ?_⟩
  · norm_num [specWorldAabb, sqU, Polygon.get_aabb, min_def, max_def]
  · norm_num [specWorldAabb, sqU, Polygon.get_aabb, min_def, max_def]
  · norm_num [AxisAlignedBoundingBox.intersects]
  · have hps : scenFar.polygons.pairs = [(0, sqU), (1, sqU)] := rfl
    have hmi : sqU.may_intersect [sqU] = true := by
      norm_num [sqU, Polygon.may_intersect, Polygon.get_aabb,
        AxisAlignedBoundingBox.intersects, min_def, max_def]
    have hint : sqU.intersects sqU = true := by
      simp only [sqU, Polygon.intersects, Polygon.checkSeparationWith, Polygon.size,
        Polygon.get_edge_normal, Polygon.project_onto_axis, separatedOn,
        List.range_succ, List.range_zero, List.all_append, List.all_cons, List.all_nil,
        List.length_cons, List.length_nil, List.zip_cons_cons, List.zip_nil_right,
        List.map_cons, List.map_nil, List.foldl_cons, List.foldl_nil,
        List.getD_cons_zero, List.getD_cons_succ]
      norm_num [min_def, max_def]
    simp only [handleCollisions, hps, List.foldl_cons, List.foldl_nil]
    simp only [processPair, hmi, hint]
    norm_num [Component.containsE, SparseSet.contains, Component.setAt,
      Component.get?, scenFar, emptyC, Component.init, SparseSet.init]

/-! ## Remaining claim theorems -/

/-- Claim C2 (code bug): at the concrete pair square `[0,10]²` versus the
diamond around `(15,15)` — both with 4 ≥ 3 vertices — the code's
`intersects` returns true although the Separating Axis Theorem over the
edges of BOTH polygons (the spec's algorithm, `specSatIntersects`) finds
the diamond's diagonal axis separating them: the lambda in the source
captures `*this` by value, so `checkSeparationWith(other)` re-tests
`this`'s edge normals instead of `other`'s. -/
theorem intersects_capture_bug :
    sq10.size = 4 ∧ dia15.size = 4 ∧
    Polygon.intersects sq10 dia15 = true ∧
    specSatIntersects sq10 dia15 = false := by
  refine ⟨rfl, rfl, ?_, ?_⟩
  · simp only [sq10, dia15, Polygon.intersects, Polygon.checkSeparationWith,
      Polygon.size, Polygon.get_edge_normal, Polygon.project_onto_axis, separatedOn,
      List.range_succ, List.range_zero, List.all_append, List.all_cons, List.all_nil,
      List.length_cons, List.length_nil, List.zip_cons_cons, List.zip_nil_right,
      List.map_cons, List.map_nil, List.foldl_cons, List.foldl_nil,
      List.getD_cons_zero, List.getD_cons_succ]
    norm_num [min_def, max_def]
  · -- the diamond's first edge normal (6, 6) is a separating axis
    refine List.all_eq_false.mpr ⟨dia15.get_edge_normal 0, ?_, ?_⟩
    · exact List.mem_append_right _
        (List.mem_map_of_mem _ (List.mem_range.mpr (by norm_num [dia15, Polygon.size])))
    · simp only [sq10, dia15, Polygon.size, Polygon.get_edge_normal,
        Polygon.project_onto_axis, separatedOn,
        List.length_cons, List.length_nil, List.zip_cons_cons, List.zip_nil_right,
        List.map_cons, List.map_nil, List.foldl_cons, List.foldl_nil,
        List.getD_cons_zero, List.getD_cons_succ]
      norm_num [min_def, max_def]

/-- Counterexample to claim C8 as stated: on the empty polygon the AABB
computation produces NO defined result at all — the source reaches
min/max over an empty sequence (dereferencing the end iterator, undefined
behavior modelled as `none`) without any guard or explicit error, and the
projection helper likewise yields its degenerate empty case. -/
theorem get_aabb_empty_counterexample :
    Polygon.get_aabb ⟨[], []⟩ = none ∧
    Polygon.project_onto_axis ⟨[], []⟩ ⟨[], []⟩ ⟨1, 0⟩ = none :=
  ⟨rfl, rfl⟩

/-- Amended claim C8: for a polygon with an empty vertex sequence,
`get_aabb` has no defined result (min/max over an empty sequence, an
unguarded undefined operation modelled as `none`), and `project_onto_axis`
degenerates to its empty case; no fail-fast error path exists. -/
theorem get_aabb_empty_undefined :
    (∀ p : Polygon, p.get_aabb = none ↔ p.vertices_x = [] ∨ p.vertices_y = []) ∧
    (∀ (self poly : Polygon) (normal : Vec2),
      self.project_onto_axis poly normal = none ↔
        poly.vertices_x = [] ∨ poly.vertices_y = []) := by
  constructor
  · intro p
    unfold Polygon.get_aabb
    cases hx : p.vertices_x with
    | nil => simp
    | cons a t =>
      cases hy : p.vertices_y with
      | nil => simp
      | cons b tb => simp
  · intro self poly normal
    unfold Polygon.project_onto_axis
    cases hz : poly.vertices_x.zip poly.vertices_y with
    | nil =>
      simp only [hz, List.map_nil]
      rw [List.zip_eq_nil_iff] at hz
      simp [hz]
    | cons hd tl =>
      simp only [hz, List.map_cons]
      constructor
      · intro hh
        simp at hh
      · intro hh
        have hznil := List.zip_eq_nil_iff.mpr hh
        rw [hz] at hznil
        simp at hznil

/-- Witness for the amended claim C8, at the concrete empty polygon. -/
theorem get_aabb_empty_undefined_witness :
    Polygon.get_aabb ⟨[], []⟩ = none ∧
    Polygon.project_onto_axis ⟨[], []⟩ ⟨[], []⟩ ⟨0, 1⟩ = none :=
  ⟨(get_aabb_empty_undefined.1 ⟨[], []⟩).mpr (Or.inl rfl),
    (get_aabb_empty_undefined.2 ⟨[], []⟩ ⟨[], []⟩ ⟨0, 1⟩).mpr (Or.inl rfl)⟩

/-- Witness for claim C6: erasing entity 1 from the concrete aligned
store keeps every other entity's value, including entity 2 whose value
was swap-and-popped into the freed slot. -/
theorem component_erase_sync_witness :
    cstoreEx.aligned = true ∧ cstoreEx.containsE 1 = true ∧
    (∀ e2, e2 ≠ 1 → (cstoreEx.erase 1).get? e2 = cstoreEx.get? e2) ∧
    (cstoreEx.erase 1).get? 2 = some 12 ∧ (cstoreEx.erase 1).get? 0 = some 10 :=
  ⟨by decide, by decide, (component_erase_sync cstoreEx 1 (by decide)).1 (by decide),
    by decide, by decide⟩

/-- Witness for claim C7: inserting a second value for the already
present entity 1 appends to the value array while the sparse set no-ops,
desynchronizing the two dense arrays. -/
theorem component_insert_no_dedup_witness :
    cstoreEx.containsE 1 = true ∧
    cstoreEx.data.length = cstoreEx.entities.data.length ∧
    (∃ s1, cstoreEx.insert 1 20 = .ok s1 ∧
      s1.entities = cstoreEx.entities ∧
      s1.data = cstoreEx.data ++ [20] ∧
      s1.data.length = s1.entities.data.length + 1 ∧
      s1.size = cstoreEx.size) :=
  ⟨by decide, by decide, component_insert_no_dedup cstoreEx 1 20 (by decide) (by decide)⟩

/-- Exact-arithmetic evaluation of `wrapCoordinate` at the least
non-terminating positive binary32 input of claim C10, `2^32 + 512`
(the float right above `2^32`): over the rational model the loops
terminate with result 48 ∈ [-120, 120).  In the source's binary32
arithmetic this same call never terminates: in the binade
`[2^32, 2^33)` the representables are 512 apart, and the exact
difference `(2^32 + 512) - 240 = 4294967568` lies between the
representables `2^32` (272 away) and `2^32 + 512` (240 away), so
round-to-nearest returns the value unchanged and
`while (value >= max_val)` makes no progress.  (At `2^32` itself the
subtraction crosses into the ulp-256 binade, rounds down to
`4294967040.0f`, and the float loop does terminate — also with 16, the
exact value — so `2^32 + 512` is where the divergence starts.)  The
divergence is purely a floating-point absorption effect, which the
exact model cannot exhibit. -/
theorem wrapCoordinate_exact_above_pow32 :
    wrapCoordinate (2 ^ 32 + 512) (-120) 120 = 48 ∧
      (-120 : ℚ) ≤ 48 ∧ (48 : ℚ) < 120 := by
  refine ⟨?_, by norm_num, by norm_num⟩
  exact wrapCoordinate_eq_of _ _ _ _ (by norm_num) (by norm_num) (by norm_num)
    (-17895699) (by norm_num)

end Robot
